import Mathlib

/-!
Verification of the CELLINT-RC report parser and identifier synthesizer
(`src/cellint-rc.py`, class `DataAnalyzer`).

The development shallowly embeds the two algorithmic components of the
source file:

* `parse_report_content` — the report-text parser (source lines 143-211).
  The seven extraction rules are regular-expression searches; they are
  embedded by a small backtracking matcher (`matchItems`) over a linear
  pattern language (`Pattern`) that covers exactly the constructs used by
  the source patterns: literals, single-character-class repetitions
  (greedy and lazy, `*`, `+`, `+?`, `?`) and capture groups.  Character
  classes (`\w`, `\s`, `\d`, `.`) are modelled over ASCII, which covers
  every anchor and token the source patterns constrain.

* `calculate_possible_imsis` / `calculate_possible_imeis` — the identifier
  synthesizers (source lines 214-273).  `hashlib.sha256(...).hexdigest()`
  is embedded as an executable SHA-256 over the UTF-8 bytes of the input
  (`sha256_hexdigest`).  `random.randint` / `random.choice` draw from an
  injected stream `rng : Nat → Nat` (a draw for a range of size `m` is
  taken modulo `m`); `datetime.now().isoformat()` is an injected `now`
  string.  Python `dict` values of heterogeneous type are `PyVal`
  (int-or-string), Python exceptions are the `Except PyErr` monad, and
  `list(set(...))` — whose iteration order Python leaves unspecified — is
  modelled as `List.dedup`, which preserves exactly the element set.
-/

/-! ### Python-value and exception model -/

/-- Exception classes that the embedded code can raise (`TypeError` from
`+` on mismatched operands, `ValueError` from `int()` on a non-numeric
string).  `invalidParameterError` is modelled from the spec: §7 of the
design document names an `InvalidParameterError`; no such class exists
anywhere in the source. -/
inductive PyErr where
  | typeError
  | valueError
  | invalidParameterError
deriving DecidableEq, Repr

/-- A Python value as stored in the report dictionaries: either an `int`
or a `str`. -/
inductive PyVal where
  | intV : Int → PyVal
  | strV : String → PyVal
deriving DecidableEq, Repr

/-- Python `str(v)` (also f-string interpolation) on a `PyVal`. -/
def pyStr : PyVal → String
  | .intV n => toString n
  | .strV s => s

/-- Python `+` on two dynamic values: `int + int` adds, `str + str`
concatenates, a mixed application raises `TypeError`. -/
def pyAdd : PyVal → PyVal → Except PyErr PyVal
  | .intV a, .intV b => .ok (.intV (a + b))
  | .strV a, .strV b => .ok (.strV (a ++ b))
  | _, _ => .error .typeError

/-- Python `v + s` where `s` is a string literal: succeeds only when `v`
is itself a string, otherwise raises `TypeError`. -/
def pyAddStr : PyVal → String → Except PyErr String
  | .strV a, s => .ok (a ++ s)
  | .intV _, _ => .error .typeError

/-- ASCII decimal digit. -/
def isDigitChar (c : Char) : Bool := c.isDigit

/-- Value of a list of decimal digit characters. -/
def digitsToNat (cs : List Char) : Nat :=
  cs.foldl (fun n c => n * 10 + (c.toNat - 48)) 0

/-- Python `int()` applied to the characters of a string: an optional
leading `-` followed by at least one decimal digit.  (Python's `int()`
additionally tolerates surrounding whitespace, a `+` sign and `_`
separators; no string in the embedded code's reach uses those forms.) -/
def parseIntChars : List Char → Option Int
  | [] => none
  | c :: cs =>
    if c == '-' then
      if !cs.isEmpty && cs.all isDigitChar then some (-(digitsToNat cs : Int)) else none
    else
      if (c :: cs).all isDigitChar then some (digitsToNat (c :: cs)) else none

/-- Python `int(v)`: the identity on an `int`, string parsing on a `str`
(raising `ValueError` when the string is not numeric). -/
def pyInt : PyVal → Except PyErr Int
  | .intV n => .ok n
  | .strV s =>
    match parseIntChars s.toList with
    | some n => .ok n
    | none => .error .valueError

/-- Lookup in a Python `dict` modelled as an association list. -/
def dictLookup : List (String × α) → String → Option α
  | [], _ => none
  | p :: ps, k => if p.1 == k then some p.2 else dictLookup ps k

/-- Python `d[k] = v`: replace the binding in place if the key is
present, otherwise append it. -/
def dictSet : List (String × α) → String → α → List (String × α)
  | [], k, v => [(k, v)]
  | p :: ps, k, v => if p.1 == k then (k, v) :: ps else p :: dictSet ps k v

/-- Python `d.get(k, dflt)`. -/
def dictGetD (m : List (String × α)) (k : String) (dflt : α) : α :=
  (dictLookup m k).getD dflt

/-- Python `s.lower()` (ASCII; the source tokens are ASCII `\w+`
captures). -/
def lowerStr (s : String) : String :=
  String.mk (s.toList.map Char.toLower)

/-- Python `s[:n]` for a non-negative literal `n`. -/
def strTake (s : String) (n : Nat) : String :=
  String.mk (s.toList.take n)

/-- Python `s.zfill(w)` on the character list: left-pad with zeros to
width `w`, keeping a leading sign in front of the padding. -/
def zfillChars (cs : List Char) (w : Nat) : List Char :=
  if w ≤ cs.length then cs
  else
    match cs with
    | '-' :: rest => '-' :: (List.replicate (w - cs.length) '0' ++ rest)
    | '+' :: rest => '+' :: (List.replicate (w - cs.length) '0' ++ rest)
    | _ => List.replicate (w - cs.length) '0' ++ cs

/-- Python `s.zfill(w)`. -/
def zfill (s : String) (w : Nat) : String := String.mk (zfillChars s.toList w)

/-- Python list slicing `l[:count]` with a possibly negative `count`
(a negative bound drops that many elements from the end). -/
def pySliceTo (count : Int) (l : List α) : List α :=
  if 0 ≤ count then l.take count.toNat else l.take (l.length - (-count).toNat)

/-! ### A matcher for the source's regular expressions

Every pattern in `parse_report_content` is a linear sequence of literals
and single-character-class repetitions, some of them captured.  `Atom` is
one uncaptured element, `Item` adds capture groups, and `matchItems` is a
faithful backtracking matcher: a greedy repetition offers longer
consumptions first, a lazy one shorter first, and the continuation `k`
decides whether the rest of the pattern matches. -/

/-- Python `\w` (ASCII range: letters, digits, underscore). -/
def isWordChar (c : Char) : Bool := c.isAlphanum || c == '_'

/-- Python `\s` (ASCII whitespace). -/
def isPySpace (c : Char) : Bool :=
  c == ' ' || c == '\t' || c == '\n' || c == '\r' || c == '\x0b' || c == '\x0c'

/-- Python `.` without `re.DOTALL`: any character except a newline. -/
def isDotNoNL (c : Char) : Bool := c != '\n'

/-- Python `.` under `re.DOTALL`: any character. -/
def isAnyChar (_ : Char) : Bool := true

/-- The literal `-` (for the optional sign in `-?\d+`). -/
def isDashChar (c : Char) : Bool := c == '-'

/-- One uncaptured regex element: a literal, or `cls{mn,mx}` with a
greediness flag (`mx = none` means unbounded). -/
inductive Atom where
  | lit : List Char → Atom
  | rep : (Char → Bool) → Nat → Option Nat → Bool → Atom

/-- A pattern element: an uncaptured atom or a capture group (with its
1-based group number) over a run of atoms. -/
inductive Item where
  | atom : Atom → Item
  | grp : Nat → List Atom → Item

/-- A whole pattern. -/
abbrev Pattern := List Item

/-- The captures of one match: group number paired with matched text. -/
abbrev Caps := List (Nat × String)

/-- First `some` result of `f` over a list, in order. -/
def firstSome (f : α → Option β) : List α → Option β
  | [] => none
  | a :: as =>
    match f a with
    | some b => some b
    | none => firstSome f as

/-- Match a literal at the front of the input, returning the rest. -/
def litMatch : List Char → List Char → Option (List Char)
  | [], cs => some cs
  | _, [] => none
  | l :: ls, c :: cs => if l == c then litMatch ls cs else none

/-- Candidate consumption counts for a repetition: `mn..hi`, longest
first when greedy, shortest first when lazy. -/
def repCounts (mn hi : Nat) (greedy : Bool) : List Nat :=
  if greedy then ((List.range (hi + 1 - mn)).map (· + mn)).reverse
  else (List.range (hi + 1 - mn)).map (· + mn)

/-- Match one atom at the front of `cs`, trying continuations in
backtracking order. -/
def matchAtom (a : Atom) (cs : List Char) (k : List Char → Option σ) : Option σ :=
  match a with
  | .lit l =>
    match litMatch l cs with
    | some rest => k rest
    | none => none
  | .rep cls mn mx greedy =>
    let maxRun := (cs.takeWhile cls).length
    let hi := match mx with | some m => min m maxRun | none => maxRun
    firstSome (fun n => k (cs.drop n)) (repCounts mn hi greedy)

/-- Match a run of atoms with backtracking. -/
def matchAtoms (as : List Atom) (cs : List Char) (k : List Char → Option σ) : Option σ :=
  match as with
  | [] => k cs
  | a :: rest => matchAtom a cs (fun cs' => matchAtoms rest cs' k)

/-- Match a pattern with backtracking, accumulating captures. -/
def matchItems (p : Pattern) (cs : List Char) (caps : Caps)
    (k : List Char → Caps → Option σ) : Option σ :=
  match p with
  | [] => k cs caps
  | .atom a :: items => matchAtom a cs (fun cs' => matchItems items cs' caps k)
  | .grp i as :: items =>
    matchAtoms as cs (fun cs' =>
      matchItems items cs' (caps ++ [(i, String.mk (cs.take (cs.length - cs'.length)))]) k)

/-- Attempt a match anchored at the current position; on success return
the captures and the input remaining after the match. -/
def tryMatchAt (p : Pattern) (cs : List Char) : Option (Caps × List Char) :=
  matchItems p cs [] (fun rest caps => some (caps, rest))

/-- Python `re.search`: try the pattern at each start position from the
left, returning the first successful match. -/
def reSearch (p : Pattern) : List Char → Option (Caps × List Char)
  | [] => tryMatchAt p []
  | c :: cs =>
    match tryMatchAt p (c :: cs) with
    | some r => some r
    | none => reSearch p cs

/-- Python `re.findall`: repeated `re.search`, resuming after the end of
each match.  The fuel bounds the recursion; every pattern used by the
source consumes at least one character per match, so fuel `length + 1`
is never exhausted. -/
def reFindallAux (p : Pattern) : Nat → List Char → List Caps
  | 0, _ => []
  | fuel + 1, cs =>
    match reSearch p cs with
    | none => []
    | some (caps, rest) =>
      if rest.length < cs.length then caps :: reFindallAux p fuel rest
      else [caps]

/-- Python `re.findall` over a character list. -/
def reFindall (p : Pattern) (cs : List Char) : List Caps :=
  reFindallAux p (cs.length + 1) cs

/-- Python `match.group(i)` for the groups of one match. -/
def capGet (caps : Caps) (i : Nat) : String :=
  match caps.find? (fun c => c.1 == i) with
  | some c => c.2
  | none => ""

/-! ### Language semantics of the matcher

These predicates specify what a successful match can have consumed; the
soundness lemmas below relate the executable matcher to them. -/

/-- The character lists one atom can consume. -/
def AtomLang : Atom → List Char → Prop
  | .lit l, xs => xs = l
  | .rep cls mn mx _, xs =>
    (∀ c ∈ xs, cls c = true) ∧ mn ≤ xs.length ∧ ∀ m, mx = some m → xs.length ≤ m

/-- The character lists a run of atoms can consume. -/
inductive AtomsLang : List Atom → List Char → Prop where
  | nil : AtomsLang [] []
  | cons {a : Atom} {as : List Atom} {xs ys : List Char} :
      AtomLang a xs → AtomsLang as ys → AtomsLang (a :: as) (xs ++ ys)

/-- Every capture comes from a group of the pattern and lies in that
group's language. -/
def CapsFrom (p : Pattern) (caps : Caps) : Prop :=
  ∀ c ∈ caps, ∃ as, (Item.grp c.1 as) ∈ p ∧ AtomsLang as c.2.toList

/-- The group numbers of a pattern, in order. -/
def groupIndices (p : Pattern) : List Nat :=
  p.filterMap (fun it => match it with | .grp i _ => some i | .atom _ => none)

/-! ### The source's patterns (source lines 155-206) -/

/-- Source pattern `Device:\s*(.+?)\s*-\s*(.+)`. -/
def reDevice : Pattern :=
  [ .atom (.lit "Device:".toList),
    .atom (.rep isPySpace 0 none true),
    .grp 1 [.rep isDotNoNL 1 none false],
    .atom (.rep isPySpace 0 none true),
    .atom (.lit ['-']),
    .atom (.rep isPySpace 0 none true),
    .grp 2 [.rep isDotNoNL 1 none true] ]

/-- Source pattern `Android:\s*(.+?)\s*\(`. -/
def reAndroid : Pattern :=
  [ .atom (.lit "Android:".toList),
    .atom (.rep isPySpace 0 none true),
    .grp 1 [.rep isDotNoNL 1 none false],
    .atom (.rep isPySpace 0 none true),
    .atom (.lit ['(']) ]

/-- The seven permission keys (source `perm_keys`). -/
def perm_keys : List String :=
  ["location_enabled", "course_location", "fine_location",
   "background_location", "phone_state", "write_access", "wifi_state"]

/-- Shape shared by the seven permission patterns:
`<label>\s*:\s*(\w+)`. -/
def permPattern (label : String) : Pattern :=
  [ .atom (.lit label.toList),
    .atom (.rep isPySpace 0 none true),
    .atom (.lit [':']),
    .atom (.rep isPySpace 0 none true),
    .grp 1 [.rep isWordChar 1 none true] ]

/-- The seven permission patterns (source `perm_patterns`). -/
def perm_patterns : List Pattern :=
  ["Is Location Enabled", "Course Location access", "Fine Location access",
   "Background Location access", "Phone State access", "Write access",
   "WiFi State access"].map permPattern

/-- Source pattern `SIM\(tm\):\s*(\w+),\s*(\d+),`. -/
def reSim : Pattern :=
  [ .atom (.lit "SIM(tm):".toList),
    .atom (.rep isPySpace 0 none true),
    .grp 1 [.rep isWordChar 1 none true],
    .atom (.lit [',']),
    .atom (.rep isPySpace 0 none true),
    .grp 2 [.rep isDigitChar 1 none true],
    .atom (.lit [',']) ]

/-- Source pattern `SSID:\s*(.+?)\n.+?RSSI:\s*(-?\d+).+?channel:\s*(\d+)`
compiled with `re.DOTALL` (so `.` is `isAnyChar`). -/
def reWifi : Pattern :=
  [ .atom (.lit "SSID:".toList),
    .atom (.rep isPySpace 0 none true),
    .grp 1 [.rep isAnyChar 1 none false],
    .atom (.lit ['\n']),
    .atom (.rep isAnyChar 1 none false),
    .atom (.lit "RSSI:".toList),
    .atom (.rep isPySpace 0 none true),
    .grp 2 [.rep isDashChar 0 (some 1) true, .rep isDigitChar 1 none true],
    .atom (.rep isAnyChar 1 none false),
    .atom (.lit "channel:".toList),
    .atom (.rep isPySpace 0 none true),
    .grp 3 [.rep isDigitChar 1 none true] ]

/-- Source pattern `-- getCellLocation\s*=\s*(.+)`. -/
def reCellLoc : Pattern :=
  [ .atom (.lit "-- getCellLocation".toList),
    .atom (.rep isPySpace 0 none true),
    .atom (.lit ['=']),
    .atom (.rep isPySpace 0 none true),
    .grp 1 [.rep isDotNoNL 1 none true] ]

/-- Source pattern `(\w+)\s*:\s*(-?\d+)` (the generic labeled-integer
scan of rule 7). -/
def reLTE : Pattern :=
  [ .grp 1 [.rep isWordChar 1 none true],
    .atom (.rep isPySpace 0 none true),
    .atom (.lit [':']),
    .atom (.rep isPySpace 0 none true),
    .grp 2 [.rep isDashChar 0 (some 1) true, .rep isDigitChar 1 none true] ]

/-- The allow-list of LTE parameter names (source line 208). -/
def allowList : List String :=
  ["mcc", "mnc", "tac", "pci", "rsrp", "rsrq", "rssnr", "band", "cid", "nid", "asu", "power"]

/-! ### The parser (source `parse_report_content`, lines 143-211) -/

/-- One entry of `wifi_info["networks"]`. -/
structure WifiNetwork where
  ssid : String
  rssi : Int
  channel : Int
deriving DecidableEq, Repr

/-- The record built by `parse_report_content`. -/
structure ParsedReport where
  device_info : List (String × String)
  permissions : List (String × Bool)
  sim_info : List (String × String)
  wifi_networks : List WifiNetwork
  cell_info : List (String × PyVal)
  timestamp : String
deriving DecidableEq, Repr

/-- The `(param, value)` capture pairs of the rule-7 `re.findall` over
the whole document. -/
def ltePairs (content : String) : List (String × String) :=
  (reFindall reLTE content.toList).map (fun caps => (capGet caps 1, capGet caps 2))

/-- One step of the rule-7 loop: `if param.lower() in allowList:
cell_info[param.lower()] = int(value)`. -/
def applyLte (m : List (String × PyVal)) (pv : String × String) :
    Except PyErr (List (String × PyVal)) :=
  if allowList.contains (lowerStr pv.1) then do
    let v ← pyInt (.strV pv.2)
    pure (dictSet m (lowerStr pv.1) (.intV v))
  else pure m

/-- The `(ssid, rssi, channel)` capture triples of the WiFi
`re.findall`. -/
def wifiTriples (content : String) : List (String × String × String) :=
  (reFindall reWifi content.toList).map
    (fun caps => (capGet caps 1, capGet caps 2, capGet caps 3))

/-- One step of the WiFi loop: append one network entry with `rssi` and
`channel` converted by `int()`. -/
def applyWifi (nets : List WifiNetwork) (t : String × String × String) :
    Except PyErr (List WifiNetwork) := do
  let rssi ← pyInt (.strV t.2.1)
  let channel ← pyInt (.strV t.2.2)
  pure (nets ++ [⟨t.1, rssi, channel⟩])

/-- Rules 1 and 2: `device_info` (model, hardware, android_version). -/
def deviceInfoOf (cs : List Char) : List (String × String) :=
  let device_info : List (String × String) :=
    match reSearch reDevice cs with
    | some (caps, _) => [("model", capGet caps 1), ("hardware", capGet caps 2)]
    | none => []
  match reSearch reAndroid cs with
  | some (caps, _) => dictSet device_info "android_version" (capGet caps 1)
  | none => device_info

/-- Rule 3: the seven permission searches, in `zip(perm_keys,
perm_patterns)` order; a matched token is normalized by
`token.lower() == "true"`. -/
def permissionsOf (cs : List Char) : List (String × Bool) :=
  (perm_keys.zip perm_patterns).foldl (fun m kp =>
    match reSearch kp.2 cs with
    | some (caps, _) => dictSet m kp.1 (lowerStr (capGet caps 1) == "true")
    | none => m) []

/-- Rule 4: `sim_info` (operator, mccmnc). -/
def simInfoOf (cs : List Char) : List (String × String) :=
  match reSearch reSim cs with
  | some (caps, _) => [("operator", capGet caps 1), ("mccmnc", capGet caps 2)]
  | none => []

/-- Rule 6: the raw-string `location` entry of `cell_info`. -/
def cellLocationOf (cs : List Char) : List (String × PyVal) :=
  match reSearch reCellLoc cs with
  | some (caps, _) => [("location", .strV (capGet caps 1))]
  | none => []

/-- `DataAnalyzer.parse_report_content` (source lines 143-211).  `now` is
the injected `datetime.now().isoformat()` string.  The pure extraction
rules are the named functions above; the two `int()` loops (WiFi then
LTE, in source order) are the only fallible steps, hence the `Except`;
their captures always parse (theorem `parse_report_content_total`), so
the error branch is unreachable. -/
def parse_report_content (now : String) (content : String) : Except PyErr ParsedReport := do
  -- Extract WiFi networks
  let networks ← (wifiTriples content).foldlM applyWifi []
  -- Extract cell information and LTE parameters
  let cell_info ← (ltePairs content).foldlM applyLte (cellLocationOf content.toList)
  pure ⟨deviceInfoOf content.toList, permissionsOf content.toList, simInfoOf content.toList,
        networks, cell_info, now⟩

/-- Permission lookup through the `Except` wrapper (for stating
properties of parses). -/
def permLookup (e : Except PyErr ParsedReport) (k : String) : Option Bool :=
  match e with
  | .ok r => dictLookup r.permissions k
  | .error _ => none

/-- Cell-info lookup through the `Except` wrapper. -/
def cellLookup (e : Except PyErr ParsedReport) (k : String) : Option PyVal :=
  match e with
  | .ok r => dictLookup r.cell_info k
  | .error _ => none

/-- The value that rule 7 leaves under key `k`: the integer of the last
`(param, value)` pair whose lowercased `param` is `k`. -/
def lastLteValue (content : String) (k : String) : Option Int :=
  (((ltePairs content).filter (fun pv => lowerStr pv.1 == k)).getLast?).map
    (fun pv => (parseIntChars pv.2.toList).getD 0)

/-! ### SHA-256 (executable model of `hashlib.sha256(...).hexdigest()`) -/

/-- Two to the thirty-two, the word modulus of SHA-256. -/
def M32 : Nat := 4294967296

/-- Addition modulo `2^32`. -/
def add32 (a b : Nat) : Nat := (a + b) % M32

/-- Rotate a 32-bit word right by `k` bits. -/
def rotr32 (x k : Nat) : Nat := ((x >>> k) ||| ((x <<< (32 - k)) % M32)) % M32

/-- Bitwise complement of a 32-bit word. -/
def not32 (x : Nat) : Nat := 4294967295 - x

/-- SHA-256 choice function. -/
def shaCh (e f g : Nat) : Nat := (e &&& f) ^^^ (not32 e &&& g)

/-- SHA-256 majority function. -/
def shaMaj (a b c : Nat) : Nat := (a &&& b) ^^^ (a &&& c) ^^^ (b &&& c)

/-- SHA-256 big sigma 0. -/
def bigS0 (a : Nat) : Nat := rotr32 a 2 ^^^ rotr32 a 13 ^^^ rotr32 a 22

/-- SHA-256 big sigma 1. -/
def bigS1 (e : Nat) : Nat := rotr32 e 6 ^^^ rotr32 e 11 ^^^ rotr32 e 25

/-- SHA-256 small sigma 0. -/
def smallS0 (w : Nat) : Nat := rotr32 w 7 ^^^ rotr32 w 18 ^^^ (w >>> 3)

/-- SHA-256 small sigma 1. -/
def smallS1 (w : Nat) : Nat := rotr32 w 17 ^^^ rotr32 w 19 ^^^ (w >>> 10)

/-- The sixty-four SHA-256 round constants, written in decimal. -/
def K256 : List Nat :=
  [1116352408, 1899447441, 3049323471, 3921009573, 961987163,
   1508970993, 2453635748, 2870763221, 3624381080, 310598401,
   607225278, 1426881987, 1925078388, 2162078206, 2614888103,
   3248222580, 3835390401, 4022224774, 264347078, 604807628,
   770255983, 1249150122, 1555081692, 1996064986, 2554220882,
   2821834349, 2952996808, 3210313671, 3336571891, 3584528711,
   113926993, 338241895, 666307205, 773529912, 1294757372,
   1396182291, 1695183700, 1986661051, 2177026350, 2456956037,
   2730485921, 2820302411, 3259730800, 3345764771, 3516065817,
   3600352804, 4094571909, 275423344, 430227734, 506948616,
   659060556, 883997877, 958139571, 1322822218, 1537002063,
   1747873779, 1955562222, 2024104815, 2227730452, 2361852424,
   2428436474, 2756734187, 3204031479, 3329325298]

/-- The eight SHA-256 working registers. -/
structure Sha8 where
  a : Nat
  b : Nat
  c : Nat
  d : Nat
  e : Nat
  f : Nat
  g : Nat
  h : Nat
deriving DecidableEq, Repr

/-- The initial state of the SHA-256 compression, in decimal. -/
def initH : Sha8 :=
  ⟨1779033703, 3144134277, 1013904242, 2773480762, 1359893119, 2600822924, 528734635, 1541459225⟩

/-- One SHA-256 compression round; `kw` is the pair of round constant
and schedule word. -/
def compressRound (st : Sha8) (kw : Nat × Nat) : Sha8 :=
  let t1 := add32 st.h (add32 (bigS1 st.e) (add32 (shaCh st.e st.f st.g) (add32 kw.1 kw.2)))
  let t2 := add32 (bigS0 st.a) (shaMaj st.a st.b st.c)
  ⟨add32 t1 t2, st.a, st.b, st.c, add32 st.d t1, st.e, st.f, st.g⟩

/-- Big-endian packing of bytes into 32-bit words. -/
def bytesToWords : List Nat → List Nat
  | b0 :: b1 :: b2 :: b3 :: rest => (((b0 * 256 + b1) * 256 + b2) * 256 + b3) :: bytesToWords rest
  | _ => []

/-- The next message-schedule word from the last sixteen. -/
def nextW (ws : List Nat) : Nat :=
  add32 (add32 (ws.getD (ws.length - 16) 0) (smallS0 (ws.getD (ws.length - 15) 0)))
        (add32 (ws.getD (ws.length - 7) 0) (smallS1 (ws.getD (ws.length - 2) 0)))

/-- Extend the sixteen block words to the 64-entry message schedule. -/
def extendSchedule (ws : List Nat) : List Nat :=
  (List.range 48).foldl (fun acc _ => acc ++ [nextW acc]) ws

/-- Process one 64-byte block. -/
def processBlock (h0 : Sha8) (block : List Nat) : Sha8 :=
  let ws := extendSchedule (bytesToWords block)
  let st := (K256.zip ws).foldl compressRound h0
  ⟨add32 h0.a st.a, add32 h0.b st.b, add32 h0.c st.c, add32 h0.d st.d,
   add32 h0.e st.e, add32 h0.f st.f, add32 h0.g st.g, add32 h0.h st.h⟩

/-- Split a byte list into 64-byte chunks (fuelled for structural
recursion; the fuel is always sufficient at the call site). -/
def chunk64Aux : Nat → List Nat → List (List Nat)
  | 0, _ => []
  | _, [] => []
  | fuel + 1, bs => bs.take 64 :: chunk64Aux fuel (bs.drop 64)

/-- UTF-8 encoding of one character (Python `str.encode()`). -/
def utf8EncodeCharNat (c : Char) : List Nat :=
  let n := c.toNat
  if n < 0x80 then [n]
  else if n < 0x800 then [0xC0 ||| (n >>> 6), 0x80 ||| (n &&& 0x3F)]
  else if n < 0x10000 then
    [0xE0 ||| (n >>> 12), 0x80 ||| ((n >>> 6) &&& 0x3F), 0x80 ||| (n &&& 0x3F)]
  else
    [0xF0 ||| (n >>> 18), 0x80 ||| ((n >>> 12) &&& 0x3F), 0x80 ||| ((n >>> 6) &&& 0x3F),
     0x80 ||| (n &&& 0x3F)]

/-- Big-endian byte expansion of a value into `n` bytes. -/
def beBytes (n : Nat) (v : Nat) : List Nat :=
  (List.range n).reverse.map (fun i => (v >>> (8 * i)) % 256)

/-- Lowercase hexadecimal digit of a nibble. -/
def hexCharOfNibble (n : Nat) : Char :=
  if n < 10 then Char.ofNat (48 + n) else Char.ofNat (87 + n)

/-- Eight lowercase hex characters of a 32-bit word. -/
def wordToHex (w : Nat) : List Char :=
  (List.range 8).reverse.map (fun i => hexCharOfNibble ((w >>> (4 * i)) % 16))

/-- `hashlib.sha256(s.encode()).hexdigest()`: SHA-256 over the UTF-8
bytes of `s`, rendered as 64 lowercase hex characters. -/
def sha256_hexdigest (s : String) : String :=
  let bytes := s.toList.flatMap utf8EncodeCharNat
  let padded := bytes ++ [0x80] ++ List.replicate ((119 - bytes.length % 64) % 64) 0
                ++ beBytes 8 (8 * bytes.length)
  let blocks := chunk64Aux (padded.length + 1) padded
  let fin := blocks.foldl processBlock initH
  String.mk (([fin.a, fin.b, fin.c, fin.d, fin.e, fin.f, fin.g, fin.h]).flatMap wordToHex)

/-! ### The identifier synthesizers (source lines 214-273) -/

/-- `MAX_CALCULATIONS` (source line 32). -/
def MAX_CALCULATIONS : Nat := 100

/-- `''.join(str(random.randint(0, 9)) for _ in range(n))`: `n` random
digits drawn from the injected stream starting at draw index `start`. -/
def randomDigits (rng : Nat → Nat) (start n : Nat) : String :=
  String.mk ((List.range n).map (fun j => Char.ofNat (48 + rng (start + j) % 10)))

/-- The three candidate strings produced by one iteration of the IMSI
loop. -/
structure ImsiTriple where
  sha_imsi : String
  math_imsi : String
  rand_imsi : String
deriving DecidableEq, Repr

/-- The integer product `int(tac) * int(pci) * int(ci)` of Method 2,
with Python's left-to-right evaluation of the conversions. -/
def imsiMathProduct (tac : PyVal) (pci ci : String) : Except PyErr Int := do
  let t ← pyInt tac
  let p ← pyInt (.strV pci)
  let c ← pyInt (.strV ci)
  pure (t * p * c)

/-- The f-string `f"{mcc}{mnc}{tac}{pci}{ci}{i}"` hashed by Method 1. -/
def imsiHashStr (mcc mnc tac : PyVal) (pci ci : String) (i : Nat) : String :=
  pyStr mcc ++ pyStr mnc ++ pyStr tac ++ pci ++ ci ++ toString i

/-- One iteration `i` of the loop in `calculate_possible_imsis` (source
lines 227-238).  `mm` is `mcc + mnc`, evaluated first inside Method 1 and
reused (same value, same failure) by Methods 2 and 3. -/
def imsiIteration (rng : Nat → Nat) (mcc mnc tac : PyVal) (pci ci : String) (i : Nat) :
    Except PyErr ImsiTriple := do
  let mm ← pyAdd mcc mnc
  let sha_imsi ← pyAddStr mm (strTake (sha256_hexdigest (imsiHashStr mcc mnc tac pci ci i)) 10)
  let prod ← imsiMathProduct tac pci ci
  let math_imsi ← pyAddStr mm (zfill (toString (prod % 1000000000)) 10)
  let rand_imsi ← pyAddStr mm (randomDigits rng (10 * i) 10)
  pure ⟨sha_imsi, math_imsi, rand_imsi⟩

/-- `DataAnalyzer.calculate_possible_imsis` (source lines 214-241).
Each loop iteration consumes ten draws of the random stream (Method 3);
`list(set(...))` is modelled as `List.dedup` (Python's set iteration
order is implementation-defined; the element set is preserved
exactly). -/
def calculate_possible_imsis (rng : Nat → Nat) (device_data : List (String × PyVal))
    (count : Int) : Except PyErr (List String) := do
  let mcc := dictGetD device_data "mcc" (.strV "310")
  let mnc := dictGetD device_data "mnc" (.strV "260")
  let tac := dictGetD device_data "tac" (.strV "0000")
  let pci := pyStr (dictGetD device_data "pci" (.strV "0"))
  let ci := pyStr (dictGetD device_data "ci" (.strV "0"))
  let n := (min count (MAX_CALCULATIONS : Int)).toNat
  let pool ← (List.range n).foldlM (fun acc i => do
      let t ← imsiIteration rng mcc mnc tac pci ci i
      pure (acc ++ [t.sha_imsi, t.math_imsi, t.rand_imsi])) []
  pure (pySliceTo count pool.dedup)

/-- `tac_db` (source line 248). -/
def tac_db : List String := ["35", "01", "86"]

/-- The Luhn-style digit sum of the source (lines 261-268): the digit at
each even 0-indexed position is doubled, with 9 subtracted when the
double exceeds 9. -/
def luhn_total (base : List Char) : Nat :=
  (base.enum).foldl (fun total x =>
    let d := x.2.toNat - 48
    let d := if x.1 % 2 == 0 then (if d * 2 > 9 then d * 2 - 9 else d * 2) else d
    total + d) 0

/-- The check digit `(10 - (total % 10)) % 10` (source line 270). -/
def luhn_check_digit (base : List Char) : Nat := (10 - luhn_total base % 10) % 10

/-- `DataAnalyzer.calculate_possible_imeis` (source lines 244-273).
Each iteration consumes thirteen draws of the random stream: one for
`random.choice(tac_db)` (taken modulo 3) and twelve for the serial
digits. -/
def calculate_possible_imeis (rng : Nat → Nat) (count : Int) : List String :=
  (List.range (min count (MAX_CALCULATIONS : Int)).toNat).map (fun k =>
    let tac := tac_db.getD (rng (13 * k) % 3) "35"
    let serial := randomDigits rng (13 * k + 1) 12
    let base_imei := tac ++ serial
    base_imei ++ toString (luhn_check_digit base_imei.toList))

/-- A constant random stream, used to instantiate `rng` in concrete
evaluations. -/
def zeroRng : Nat → Nat := fun _ => 0

/-- The three candidate strings generated by iteration `i` of
`calculate_possible_imsis` when `mcc` and `mnc` are the strings `a` and
`b` and Method 2's integer product is `v`. -/
def imsiCandidates (rng : Nat → Nat) (a b : String) (tac : PyVal) (pci ci : String)
    (v : Int) (i : Nat) : List String :=
  [(a ++ b) ++ strTake (sha256_hexdigest (imsiHashStr (.strV a) (.strV b) tac pci ci i)) 10,
   (a ++ b) ++ zfill (toString (v % 1000000000)) 10,
   (a ++ b) ++ randomDigits rng (10 * i) 10]

/-- Digit-string test used in several claim statements. -/
def isAllDigits (s : String) : Bool := s.toList.all isDigitChar

/-- The claim's reading of "passes the Luhn checksum": the string is 15
characters and its last character is the check digit computed by
`luhn_check_digit` over the first fourteen. -/
def passesLuhnAsSpecified (s : String) : Bool :=
  s.length == 15 &&
    s.toList.drop 14 == [Char.ofNat (48 + luhn_check_digit (s.toList.take 14))]

/-! ### Basic string and list helper lemmas -/

theorem toList_mk (l : List Char) : (String.mk l).toList = l := rfl

theorem length_mk (l : List Char) : (String.mk l).length = l.length := rfl

theorem toList_append (s t : String) : (s ++ t).toList = s.toList ++ t.toList :=
  String.data_append s t

theorem length_eq_toList_length (s : String) : s.length = s.toList.length := rfl

theorem randomDigits_length (rng : Nat → Nat) (start n : Nat) :
    (randomDigits rng start n).length = n := by
  simp [randomDigits, length_mk]

theorem isDigitChar_ofNat_lt10 (m : Nat) (h : m < 10) :
    isDigitChar (Char.ofNat (48 + m)) = true := by
  interval_cases m <;> decide

theorem randomDigits_all_digits (rng : Nat → Nat) (start n : Nat) :
    ∀ c ∈ (randomDigits rng start n).toList, isDigitChar c = true := by
  intro c hc
  simp only [randomDigits, toList_mk, List.mem_map] at hc
  obtain ⟨j, -, rfl⟩ := hc
  exact isDigitChar_ofNat_lt10 _ (Nat.mod_lt _ (by decide))

theorem toString_nat_lt10 (n : Nat) (h : n < 10) :
    (toString n).toList = [Char.ofNat (48 + n)] := by
  interval_cases n <;> rfl

theorem luhn_check_digit_lt10 (base : List Char) : luhn_check_digit base < 10 := by
  simp only [luhn_check_digit]
  exact Nat.mod_lt _ (by decide)

theorem tac_db_choice_mem (r : Nat) : tac_db.getD (r % 3) "35" ∈ tac_db := by
  have h : r % 3 = 0 ∨ r % 3 = 1 ∨ r % 3 = 2 := by omega
  rcases h with h | h | h <;> simp [tac_db, h]

/-! ### C9 -/

/-- C9 counterexample: the source's check-digit computation applied to
the base digit vector `"356938035643809"` does not produce check digit
7. -/
theorem C9_counterexample : luhn_check_digit "356938035643809".toList ≠ 7 := by decide

/-- C9 (amended): the source's check-digit computation applied to the
base digit vector `"356938035643809"` produces check digit 6, so the
final identifier composed from this base is `"3569380356438096"` (not
`"3569380356438097"`). -/
theorem C9_fixed_vector_check_digit :
    luhn_check_digit "356938035643809".toList = 6 ∧
      "356938035643809" ++ toString (luhn_check_digit "356938035643809".toList) =
        "3569380356438096" := by
  constructor
  · decide
  · rfl

/-! ### C1 -/

/-- C1: for every count `c` in `[0, 100]` and every random stream,
`calculate_possible_imeis` returns exactly `c` strings, and every
returned string is 15 digits long and satisfies the Luhn checksum as the
claim defines it: its last character is the check digit computed by the
source's rule (double the digit at every even 0-indexed position from
the left, subtracting 9 above 9, check digit `(10 - sum % 10) % 10`)
over the first fourteen digits. -/
theorem C1_imei_count_and_luhn (rng : Nat → Nat) (c : Int) (h0 : 0 ≤ c) (h1 : c ≤ 100) :
    (calculate_possible_imeis rng c).length = c.toNat ∧
      ∀ s ∈ calculate_possible_imeis rng c,
        s.length = 15 ∧ isAllDigits s = true ∧ passesLuhnAsSpecified s = true := by
  have hmin : min c (MAX_CALCULATIONS : Int) = c := by
    simp only [MAX_CALCULATIONS]
    omega
  constructor
  · simp [calculate_possible_imeis, hmin]
  · intro s hs
    simp only [calculate_possible_imeis, hmin, List.mem_map] at hs
    obtain ⟨k, -, rfl⟩ := hs
    set tac := tac_db.getD (rng (13 * k) % 3) "35" with htac
    have htdig : tac.toList.length = 2 ∧ ∀ c ∈ tac.toList, isDigitChar c = true := by
      have hmem := tac_db_choice_mem (rng (13 * k))
      rw [← htac] at hmem
      simp only [tac_db, List.mem_cons, List.not_mem_nil, or_false] at hmem
      rcases hmem with h | h | h <;> rw [h] <;> exact ⟨by decide, by decide⟩
    set serial := randomDigits rng (13 * k + 1) 12 with hserial
    have hsdig : serial.toList.length = 12 ∧ ∀ c ∈ serial.toList, isDigitChar c = true :=
      ⟨randomDigits_length rng (13 * k + 1) 12, randomDigits_all_digits rng (13 * k + 1) 12⟩
    set base := tac ++ serial with hbase
    have hbl : base.toList = tac.toList ++ serial.toList := toList_append tac serial
    have hblen : base.toList.length = 14 := by
      rw [hbl, List.length_append, htdig.1, hsdig.1]
    have hck : luhn_check_digit base.toList < 10 := luhn_check_digit_lt10 _
    have hcs : (toString (luhn_check_digit base.toList)).toList
        = [Char.ofNat (48 + luhn_check_digit base.toList)] := toString_nat_lt10 _ hck
    have hfull : (base ++ toString (luhn_check_digit base.toList)).toList
        = base.toList ++ [Char.ofNat (48 + luhn_check_digit base.toList)] := by
      rw [toList_append, hcs]
    refine ⟨?_, ?_, ?_⟩
    · rw [length_eq_toList_length, hfull, List.length_append, hblen]
      rfl
    · simp only [isAllDigits, List.all_eq_true, hfull, List.mem_append, List.mem_singleton]
      rintro c (hc | rfl)
      · rw [hbl] at hc
        rcases List.mem_append.1 hc with h | h
        · exact htdig.2 c h
        · exact hsdig.2 c h
      · exact isDigitChar_ofNat_lt10 _ hck
    · simp only [passesLuhnAsSpecified, Bool.and_eq_true, beq_iff_eq]
      constructor
      · rw [length_eq_toList_length, hfull, List.length_append, hblen]
        rfl
      · have htake : (base ++ toString (luhn_check_digit base.toList)).toList.take 14
            = base.toList := by
          rw [hfull, ← hblen, List.take_left]
        have hdrop : (base ++ toString (luhn_check_digit base.toList)).toList.drop 14
            = [Char.ofNat (48 + luhn_check_digit base.toList)] := by
          rw [hfull, ← hblen, List.drop_left]
        rw [hdrop, htake]

/-- C1 witness: the theorem instantiated at count 2 and the constant
random stream. -/
theorem C1_witness :
    (0 : Int) ≤ 2 ∧ (2 : Int) ≤ 100 ∧
      ((calculate_possible_imeis zeroRng 2).length = (2 : Int).toNat ∧
        ∀ s ∈ calculate_possible_imeis zeroRng 2,
          s.length = 15 ∧ isAllDigits s = true ∧ passesLuhnAsSpecified s = true) :=
  ⟨by decide, by decide, C1_imei_count_and_luhn zeroRng 2 (by decide) (by decide)⟩

/-! ### Reduction lemmas for the `Except` monad -/

theorem exceptBind_ok (x : α) (f : α → Except ε β) : (Except.ok x >>= f) = f x := rfl

theorem exceptBind_error (e : ε) (f : α → Except ε β) :
    ((Except.error e : Except ε α) >>= f) = .error e := rfl

theorem exceptMap_ok (g : α → β) (x : α) : (g <$> (Except.ok x : Except ε α)) = .ok (g x) := rfl

theorem exceptMap_error (g : α → β) (e : ε) :
    (g <$> (Except.error e : Except ε α)) = .error e := rfl

/-! ### Characterization of `calculate_possible_imsis` -/

theorem imsiIteration_ok (rng : Nat → Nat) (a b : String) (tac : PyVal) (pci ci : String)
    (i : Nat) (v : Int) (hv : imsiMathProduct tac pci ci = .ok v) :
    imsiIteration rng (.strV a) (.strV b) tac pci ci i =
      .ok ⟨(a ++ b) ++ strTake (sha256_hexdigest (imsiHashStr (.strV a) (.strV b) tac pci ci i)) 10,
           (a ++ b) ++ zfill (toString (v % 1000000000)) 10,
           (a ++ b) ++ randomDigits rng (10 * i) 10⟩ := by
  simp [imsiIteration, pyAdd, pyAddStr, hv, exceptBind_ok, exceptMap_ok]

theorem imsiIteration_error (rng : Nat → Nat) (a b : String) (tac : PyVal) (pci ci : String)
    (i : Nat) (e : PyErr) (hv : imsiMathProduct tac pci ci = .error e) :
    imsiIteration rng (.strV a) (.strV b) tac pci ci i = .error e := by
  simp [imsiIteration, pyAdd, pyAddStr, hv, exceptBind_ok, exceptBind_error, exceptMap_ok]

theorem imsiFold_ok (rng : Nat → Nat) (a b : String) (tac : PyVal) (pci ci : String)
    (v : Int) (hv : imsiMathProduct tac pci ci = .ok v) :
    ∀ (l : List Nat) (acc : List String),
      (l.foldlM (fun acc i => do
          let t ← imsiIteration rng (.strV a) (.strV b) tac pci ci i
          pure (acc ++ [t.sha_imsi, t.math_imsi, t.rand_imsi])) acc : Except PyErr (List String))
        = .ok (acc ++ l.flatMap (imsiCandidates rng a b tac pci ci v)) := by
  intro l
  induction l with
  | nil => intro acc; simp [pure, Except.pure]
  | cons x xs ih =>
    intro acc
    rw [List.foldlM_cons, imsiIteration_ok rng a b tac pci ci x v hv, exceptBind_ok]
    show (xs.foldlM _ (acc ++ _) : Except PyErr (List String)) = _
    rw [ih]
    simp [imsiCandidates, List.append_assoc]

theorem calculate_possible_imsis_ok (rng : Nat → Nat) (dd : List (String × PyVal))
    (count : Int) (a b : String) (tac : PyVal) (pci ci : String) (v : Int)
    (ha : dictGetD dd "mcc" (.strV "310") = .strV a)
    (hb : dictGetD dd "mnc" (.strV "260") = .strV b)
    (htac : dictGetD dd "tac" (.strV "0000") = tac)
    (hpci : pyStr (dictGetD dd "pci" (.strV "0")) = pci)
    (hci : pyStr (dictGetD dd "ci" (.strV "0")) = ci)
    (hv : imsiMathProduct tac pci ci = .ok v) :
    calculate_possible_imsis rng dd count =
      .ok (pySliceTo count
        (((List.range (min count (MAX_CALCULATIONS : Int)).toNat).flatMap
          (imsiCandidates rng a b tac pci ci v)).dedup)) := by
  unfold calculate_possible_imsis
  rw [ha, hb, htac, hpci, hci]
  show ((List.range _).foldlM _ [] >>= fun pool => pure (pySliceTo count pool.dedup) :
    Except PyErr (List String)) = _
  rw [imsiFold_ok rng a b tac pci ci v hv, exceptBind_ok, List.nil_append]
  rfl

theorem calculate_possible_imsis_error (rng : Nat → Nat) (dd : List (String × PyVal))
    (count : Int) (a b : String) (tac : PyVal) (pci ci : String) (e : PyErr)
    (hcount : 1 ≤ count)
    (ha : dictGetD dd "mcc" (.strV "310") = .strV a)
    (hb : dictGetD dd "mnc" (.strV "260") = .strV b)
    (htac : dictGetD dd "tac" (.strV "0000") = tac)
    (hpci : pyStr (dictGetD dd "pci" (.strV "0")) = pci)
    (hci : pyStr (dictGetD dd "ci" (.strV "0")) = ci)
    (hv : imsiMathProduct tac pci ci = .error e) :
    calculate_possible_imsis rng dd count = .error e := by
  simp only [calculate_possible_imsis, ha, hb, htac, hpci, hci]
  have hn : (min count (MAX_CALCULATIONS : Int)).toNat
      = ((min count (MAX_CALCULATIONS : Int)).toNat - 1) + 1 := by
    have h100 : ((MAX_CALCULATIONS : Nat) : Int) = 100 := by norm_num [MAX_CALCULATIONS]
    rw [h100]
    omega
  rw [hn, List.range_succ_eq_map, List.foldlM_cons,
    imsiIteration_error rng a b tac pci ci 0 e hv, exceptBind_error, exceptBind_error,
    exceptBind_error]

/-! ### Length facts about the candidate strings -/

theorem strTake_length (s : String) (n : Nat) : (strTake s n).length = min n s.length := by
  rw [strTake, length_mk, List.length_take, length_eq_toList_length]

theorem wordToHex_length (w : Nat) : (wordToHex w).length = 8 := by
  simp [wordToHex]

theorem sha256_hexdigest_length (s : String) : (sha256_hexdigest s).length = 64 := by
  show (String.mk _).length = 64
  rw [length_mk]
  simp only [List.flatMap_cons, List.flatMap_nil, List.length_append, wordToHex_length,
    List.length_nil]

theorem zfillChars_length (cs : List Char) (w : Nat) :
    (zfillChars cs w).length = max w cs.length := by
  unfold zfillChars
  split
  · omega
  · split <;>
      simp only [List.length_cons, List.length_append, List.length_replicate] <;> omega

theorem zfill_length (s : String) (w : Nat) : (zfill s w).length = max w s.length := by
  rw [zfill, length_mk, zfillChars_length, length_eq_toList_length]

theorem toString_int_nonneg (x : Int) (h : 0 ≤ x) : toString x = Nat.repr x.toNat := by
  obtain ⟨n, rfl⟩ := Int.eq_ofNat_of_zero_le h
  rfl

theorem toString_emod_billion_length (x : Int) : (toString (x % 1000000000)).length ≤ 10 := by
  have h0 : 0 ≤ x % 1000000000 := Int.emod_nonneg x (by norm_num)
  have h1 : x % 1000000000 < 1000000000 := Int.emod_lt_of_pos x (by norm_num)
  rw [toString_int_nonneg _ h0]
  refine Nat.repr_length _ 10 (by norm_num) ?_
  have hpow : (10 : Nat) ^ 10 = 10000000000 := by norm_num
  rw [hpow]
  omega

theorem imsiCandidates_length (rng : Nat → Nat) (a b : String) (tac : PyVal)
    (pci ci : String) (v : Int) (i : Nat) :
    ∀ s ∈ imsiCandidates rng a b tac pci ci v i, s.length = a.length + b.length + 10 := by
  intro s hs
  simp only [imsiCandidates, List.mem_cons, List.not_mem_nil, or_false] at hs
  rcases hs with rfl | rfl | rfl
  · rw [String.length_append, String.length_append, strTake_length, sha256_hexdigest_length]
    norm_num
  · rw [String.length_append, String.length_append, zfill_length]
    have := toString_emod_billion_length v
    omega
  · rw [String.length_append, String.length_append, randomDigits_length]

theorem strTake_append_left (u t : String) : strTake (u ++ t) u.length = u := by
  show String.mk (((u ++ t).toList).take u.length) = u
  rw [toList_append, length_eq_toList_length, List.take_left]
  rfl

theorem mem_pySliceTo {count : Int} {l : List α} {x : α} (h : x ∈ pySliceTo count l) :
    x ∈ l := by
  unfold pySliceTo at h
  split at h <;> exact List.take_subset _ _ h

/-! ### C2 -/

/-- C2 counterexample: with the default parameters (empty `device_data`)
and count 1, the returned candidate has 16 characters, not 15 — the
10-character hash suffix is appended to the six characters of
`mcc + mnc`. -/
theorem C2_counterexample :
    Except.map (fun l => l.map String.length) (calculate_possible_imsis zeroRng [] 1)
      = .ok [16] := by rfl

/-- C2 (amended): every candidate returned by `calculate_possible_imsis`
is `mcc + mnc` followed by exactly ten generated characters, so its
length is `len(mcc) + len(mnc) + 10` — 16 characters for the default
3-digit `mcc` and 3-digit `mnc`, never 15.  (The hash-derived suffix is
hexadecimal, so candidates are not digit strings in general.) -/
theorem C2_subscriber_shape_amended (rng : Nat → Nat) (dd : List (String × PyVal))
    (count : Int) (a b : String) (v : Int)
    (ha : dictGetD dd "mcc" (.strV "310") = .strV a)
    (hb : dictGetD dd "mnc" (.strV "260") = .strV b)
    (hv : imsiMathProduct (dictGetD dd "tac" (.strV "0000"))
        (pyStr (dictGetD dd "pci" (.strV "0")))
        (pyStr (dictGetD dd "ci" (.strV "0"))) = .ok v) :
    ∃ l, calculate_possible_imsis rng dd count = .ok l ∧
      ∀ s ∈ l, s.length = a.length + b.length + 10 := by
  refine ⟨_, calculate_possible_imsis_ok rng dd count a b _ _ _ v ha hb rfl rfl rfl hv, ?_⟩
  intro s hs
  have hs' := List.mem_dedup.1 (mem_pySliceTo hs)
  obtain ⟨i, -, hmem⟩ := List.mem_flatMap.1 hs'
  exact imsiCandidates_length rng a b _ _ _ v i s hmem

/-- C2 witness: the amended theorem at the default parameters; the
candidate length is `3 + 3 + 10 = 16`. -/
theorem C2_witness :
    dictGetD ([] : List (String × PyVal)) "mcc" (.strV "310") = .strV "310" ∧
    dictGetD ([] : List (String × PyVal)) "mnc" (.strV "260") = .strV "260" ∧
    imsiMathProduct (dictGetD ([] : List (String × PyVal)) "tac" (.strV "0000"))
        (pyStr (dictGetD ([] : List (String × PyVal)) "pci" (.strV "0")))
        (pyStr (dictGetD ([] : List (String × PyVal)) "ci" (.strV "0"))) = .ok 0 ∧
    (∃ l, calculate_possible_imsis zeroRng [] 3 = .ok l ∧
      ∀ s ∈ l, s.length = "310".length + "260".length + 10) :=
  ⟨rfl, rfl, rfl, C2_subscriber_shape_amended zeroRng [] 3 "310" "260" 0 rfl rfl rfl⟩

/-! ### C4 -/

/-- C4 counterexample: `calculate_possible_imsis` throws.  On a
`device_data` carrying an integer `mcc` — exactly the value type the
parser stores in `cell_info` — the concatenation `mcc + mnc` raises
`TypeError`. -/
theorem C4_counterexample :
    calculate_possible_imsis zeroRng [("mcc", .intV 310)] 1 = .error .typeError := by rfl

/-- C4 (amended): `calculate_possible_imeis` never throws and returns
exactly `min(count, 100)` identifiers (0 for a negative or zero count);
`calculate_possible_imsis` never throws provided `mcc` and `mnc` are
strings and `tac`, `pci`, `ci` are integer-convertible (in particular
with every parameter absent), and returns the empty list at count 0
for every `device_data` whatsoever.  It does throw `TypeError` when
`mcc` or `mnc` is an integer, as produced by the parser's `cell_info`
(see the counterexample). -/
theorem C4_failure_semantics_amended :
    (∀ (rng : Nat → Nat) (count : Int),
        (calculate_possible_imeis rng count).length
          = (min count (MAX_CALCULATIONS : Int)).toNat) ∧
    (∀ rng : Nat → Nat, calculate_possible_imeis rng 0 = []) ∧
    (∀ (rng : Nat → Nat) (dd : List (String × PyVal)) (count : Int) (a b : String) (v : Int),
        dictGetD dd "mcc" (.strV "310") = .strV a →
        dictGetD dd "mnc" (.strV "260") = .strV b →
        imsiMathProduct (dictGetD dd "tac" (.strV "0000"))
            (pyStr (dictGetD dd "pci" (.strV "0")))
            (pyStr (dictGetD dd "ci" (.strV "0"))) = .ok v →
        (calculate_possible_imsis rng dd count).isOk = true) ∧
    (∀ (rng : Nat → Nat) (dd : List (String × PyVal)),
        calculate_possible_imsis rng dd 0 = .ok []) := by
  refine ⟨?_, ?_, ?_, ?_⟩
  · intro rng count
    simp [calculate_possible_imeis]
  · intro rng
    rfl
  · intro rng dd count a b v ha hb hv
    rw [calculate_possible_imsis_ok rng dd count a b _ _ _ v ha hb rfl rfl rfl hv]
    rfl
  · intro rng dd
    rfl

/-- C4 witness: the amended theorem applied with empty `device_data`
(count 5). -/
theorem C4_witness :
    dictGetD ([] : List (String × PyVal)) "mcc" (.strV "310") = .strV "310" ∧
    dictGetD ([] : List (String × PyVal)) "mnc" (.strV "260") = .strV "260" ∧
    imsiMathProduct (dictGetD ([] : List (String × PyVal)) "tac" (.strV "0000"))
        (pyStr (dictGetD ([] : List (String × PyVal)) "pci" (.strV "0")))
        (pyStr (dictGetD ([] : List (String × PyVal)) "ci" (.strV "0"))) = .ok 0 ∧
    (calculate_possible_imsis zeroRng [] 5).isOk = true :=
  ⟨rfl, rfl, rfl, C4_failure_semantics_amended.2.2.1 zeroRng [] 5 "310" "260" 0 rfl rfl rfl⟩

/-! ### C5 -/

/-- C5 counterexample: a non-numeric `tac` surfaces as `ValueError`
(Python's `int()` failure), which is not the `InvalidParameterError` the
claim names — no such exception class exists in the source. -/
theorem C5_counterexample :
    calculate_possible_imsis zeroRng [("tac", .strV "x")] 1 = .error .valueError ∧
      PyErr.valueError ≠ PyErr.invalidParameterError :=
  ⟨by rfl, by decide⟩

/-- C5 (amended): a non-numeric string among `tac`, `pci`, `ci` (the
values Method 2 converts with `int()`) surfaces as `ValueError`, while a
non-numeric `mcc` string raises nothing — it is concatenated verbatim
into the candidates.  The source defines no `InvalidParameterError`. -/
theorem C5_invalid_param_amended :
    (∀ (rng : Nat → Nat) (dd : List (String × PyVal)) (count : Int) (a b : String),
        1 ≤ count →
        dictGetD dd "mcc" (.strV "310") = .strV a →
        dictGetD dd "mnc" (.strV "260") = .strV b →
        imsiMathProduct (dictGetD dd "tac" (.strV "0000"))
            (pyStr (dictGetD dd "pci" (.strV "0")))
            (pyStr (dictGetD dd "ci" (.strV "0"))) = .error .valueError →
        calculate_possible_imsis rng dd count = .error .valueError) ∧
    (∀ (rng : Nat → Nat) (m : String) (count : Int),
        (calculate_possible_imsis rng [("mcc", .strV m)] count).isOk = true) := by
  constructor
  · intro rng dd count a b hcount ha hb hv
    exact calculate_possible_imsis_error rng dd count a b _ _ _ _ hcount ha hb rfl rfl rfl hv
  · intro rng m count
    rw [calculate_possible_imsis_ok rng [("mcc", .strV m)] count m "260"
      (.strV "0000") "0" "0" 0 rfl rfl rfl rfl rfl rfl]
    rfl

/-- C5 witness: the amended theorem at `tac = "x"` (ValueError) and at a
non-numeric `mcc` (no exception). -/
theorem C5_witness :
    (1 : Int) ≤ 1 ∧
    dictGetD [("tac", PyVal.strV "x")] "mcc" (.strV "310") = .strV "310" ∧
    dictGetD [("tac", PyVal.strV "x")] "mnc" (.strV "260") = .strV "260" ∧
    imsiMathProduct (dictGetD [("tac", PyVal.strV "x")] "tac" (.strV "0000"))
        (pyStr (dictGetD [("tac", PyVal.strV "x")] "pci" (.strV "0")))
        (pyStr (dictGetD [("tac", PyVal.strV "x")] "ci" (.strV "0"))) = .error .valueError ∧
    calculate_possible_imsis zeroRng [("tac", .strV "x")] 1 = .error .valueError ∧
    (calculate_possible_imsis zeroRng [("mcc", .strV "ABC")] 2).isOk = true :=
  ⟨by decide, rfl, rfl, rfl,
    C5_invalid_param_amended.1 zeroRng [("tac", PyVal.strV "x")] 1 "310" "260"
      (by decide) rfl rfl rfl,
    C5_invalid_param_amended.2 zeroRng "ABC" 2⟩

/-! ### C8 -/

/-- C8 counterexample: for the negative count `-1` the function returns
the empty list, whose size 0 is not at most `-1`; the claim's "for all
count `c`" fails outside `c ≥ 0`. -/
theorem C8_counterexample :
    calculate_possible_imsis zeroRng [] (-1) = .ok [] ∧
      ¬((([] : List String).length : Int) ≤ -1) :=
  ⟨by rfl, by decide⟩

/-- C8 (amended): for every non-negative count `c` and numeric-string
parameters, the returned collection has at most `c` elements and every
returned string begins with `mcc + mnc` (its first
`len(mcc) + len(mnc)` characters are exactly `mcc + mnc`). -/
theorem C8_subscriber_bound_amended (rng : Nat → Nat) (dd : List (String × PyVal))
    (c : Nat) (a b : String) (v : Int)
    (ha : dictGetD dd "mcc" (.strV "310") = .strV a)
    (hb : dictGetD dd "mnc" (.strV "260") = .strV b)
    (hv : imsiMathProduct (dictGetD dd "tac" (.strV "0000"))
        (pyStr (dictGetD dd "pci" (.strV "0")))
        (pyStr (dictGetD dd "ci" (.strV "0"))) = .ok v) :
    ∃ l, calculate_possible_imsis rng dd (c : Int) = .ok l ∧
      l.length ≤ c ∧ ∀ s ∈ l, strTake s (a.length + b.length) = a ++ b := by
  refine ⟨_, calculate_possible_imsis_ok rng dd (c : Int) a b _ _ _ v ha hb rfl rfl rfl hv,
    ?_, ?_⟩
  · unfold pySliceTo
    rw [if_pos (by positivity : (0 : Int) ≤ (c : Int))]
    calc (List.take (c : Int).toNat _).length ≤ (c : Int).toNat := List.length_take_le _ _
    _ = c := Int.toNat_natCast c
  · intro s hs
    have hs' := List.mem_dedup.1 (mem_pySliceTo hs)
    obtain ⟨i, -, hmem⟩ := List.mem_flatMap.1 hs'
    have hab : a.length + b.length = (a ++ b).length := (String.length_append a b).symm
    rw [hab]
    simp only [imsiCandidates, List.mem_cons, List.not_mem_nil, or_false] at hmem
    rcases hmem with rfl | rfl | rfl <;> exact strTake_append_left (a ++ b) _

/-- C8 witness: the amended theorem at count 4 and the default
parameters. -/
theorem C8_witness :
    dictGetD ([] : List (String × PyVal)) "mcc" (.strV "310") = .strV "310" ∧
    dictGetD ([] : List (String × PyVal)) "mnc" (.strV "260") = .strV "260" ∧
    imsiMathProduct (dictGetD ([] : List (String × PyVal)) "tac" (.strV "0000"))
        (pyStr (dictGetD ([] : List (String × PyVal)) "pci" (.strV "0")))
        (pyStr (dictGetD ([] : List (String × PyVal)) "ci" (.strV "0"))) = .ok 0 ∧
    (∃ l, calculate_possible_imsis zeroRng [] ((4 : Nat) : Int) = .ok l ∧
      l.length ≤ 4 ∧ ∀ s ∈ l, strTake s ("310".length + "260".length) = "310" ++ "260") :=
  ⟨rfl, rfl, rfl, C8_subscriber_bound_amended zeroRng [] 4 "310" "260" 0 rfl rfl rfl⟩

/-! ### Soundness of the matcher -/

theorem firstSome_some {f : α → Option β} {l : List α} {r : β}
    (h : firstSome f l = some r) : ∃ a ∈ l, f a = some r := by
  induction l with
  | nil => cases h
  | cons x xs ih =>
    rw [firstSome] at h
    cases hfx : f x with
    | some b =>
      rw [hfx] at h
      exact ⟨x, List.mem_cons_self x xs, hfx.trans h⟩
    | none =>
      rw [hfx] at h
      obtain ⟨a, ha, hfa⟩ := ih h
      exact ⟨a, List.mem_cons_of_mem x ha, hfa⟩

theorem litMatch_sound : ∀ {l cs rest : List Char}, litMatch l cs = some rest → cs = l ++ rest := by
  intro l
  induction l with
  | nil =>
    intro cs rest h
    simp only [litMatch, Option.some.injEq] at h
    subst h
    rfl
  | cons c ls ih =>
    intro cs rest h
    cases cs with
    | nil => cases h
    | cons c' cs' =>
      simp only [litMatch] at h
      split at h
      · rename_i hc
        rw [List.cons_append, ← ih h, (beq_iff_eq.1 hc)]
      · cases h

theorem repCounts_mem {mn hi n : Nat} {greedy : Bool} (h : n ∈ repCounts mn hi greedy) :
    mn ≤ n ∧ n ≤ hi := by
  have h' : n ∈ (List.range (hi + 1 - mn)).map (· + mn) := by
    unfold repCounts at h
    split at h
    · exact List.mem_reverse.1 h
    · exact h
  obtain ⟨j, hj, hjn⟩ := List.mem_map.1 h'
  have := List.mem_range.1 hj
  omega

theorem take_all_of_le_takeWhile {p : Char → Bool} {cs : List Char} {n : Nat}
    (h : n ≤ (cs.takeWhile p).length) : ∀ c ∈ cs.take n, p c = true := by
  intro c hc
  have hsplit : cs.take n = (cs.takeWhile p).take n := by
    conv_lhs => rw [← List.takeWhile_append_dropWhile (p := p) (l := cs)]
    rw [List.take_append_eq_append_take, Nat.sub_eq_zero_of_le h, List.take_zero,
      List.append_nil]
  rw [hsplit] at hc
  exact List.mem_takeWhile_imp (List.take_subset n _ hc)

theorem matchAtom_sound {σ : Type} {a : Atom} {cs : List Char} {k : List Char → Option σ}
    {r : σ} (h : matchAtom a cs k = some r) :
    ∃ n, n ≤ cs.length ∧ AtomLang a (cs.take n) ∧ k (cs.drop n) = some r := by
  cases a with
  | lit l =>
    simp only [matchAtom] at h
    split at h
    · rename_i rest hl
      have hcs := litMatch_sound hl
      refine ⟨l.length, ?_, ?_, ?_⟩
      · rw [hcs, List.length_append]; omega
      · show cs.take l.length = l
        rw [hcs, List.take_left]
      · rw [hcs, List.drop_left]
        exact h
    · cases h
  | rep cls mn mx greedy =>
    simp only [matchAtom] at h
    obtain ⟨n, hn, hfn⟩ := firstSome_some h
    obtain ⟨hmn, hhi⟩ := repCounts_mem hn
    have hboth : n ≤ (cs.takeWhile cls).length ∧ ∀ m, mx = some m → n ≤ m := by
      cases mx with
      | none =>
        refine ⟨by simpa using hhi, ?_⟩
        intro m hm
        cases hm
      | some m =>
        have := le_min_iff.1 (by simpa using hhi)
        exact ⟨this.2, fun m' hm' => by cases hm'; exact this.1⟩
    have htw : (cs.takeWhile cls).length ≤ cs.length := by
      have := congrArg List.length (List.takeWhile_append_dropWhile (p := cls) (l := cs))
      rw [List.length_append] at this
      omega
    have hlen : n ≤ cs.length := hboth.1.trans htw
    refine ⟨n, hlen, ⟨take_all_of_le_takeWhile hboth.1, ?_, ?_⟩, hfn⟩
    · rw [List.length_take]
      omega
    · intro m hm
      rw [List.length_take]
      have := hboth.2 m hm
      omega

theorem matchAtoms_sound {σ : Type} :
    ∀ {as : List Atom} {cs : List Char} {k : List Char → Option σ} {r : σ},
      matchAtoms as cs k = some r →
      ∃ n, n ≤ cs.length ∧ AtomsLang as (cs.take n) ∧ k (cs.drop n) = some r := by
  intro as
  induction as with
  | nil =>
    intro cs k r h
    exact ⟨0, Nat.zero_le _, by simpa using AtomsLang.nil, by simpa using h⟩
  | cons a as ih =>
    intro cs k r h
    simp only [matchAtoms] at h
    obtain ⟨n1, hn1, hl1, hk1⟩ := matchAtom_sound h
    obtain ⟨n2, hn2, hl2, hk2⟩ := ih hk1
    rw [List.length_drop] at hn2
    refine ⟨n1 + n2, by omega, ?_, ?_⟩
    · rw [List.take_add]
      exact AtomsLang.cons hl1 hl2
    · rw [List.drop_drop] at hk2
      exact hk2

theorem matchItems_sound {σ : Type} :
    ∀ {p : Pattern} {cs : List Char} {caps : Caps} {k : List Char → Caps → Option σ} {r : σ},
      matchItems p cs caps k = some r →
      ∃ n caps', n ≤ cs.length ∧ CapsFrom p caps' ∧
        caps'.map Prod.fst = groupIndices p ∧ k (cs.drop n) (caps ++ caps') = some r := by
  intro p
  induction p with
  | nil =>
    intro cs caps k r h
    refine ⟨0, [], Nat.zero_le _, ?_, rfl, by simpa using h⟩
    intro c hc
    cases hc
  | cons it items ih =>
    intro cs caps k r h
    cases it with
    | atom a =>
      simp only [matchItems] at h
      obtain ⟨n1, hn1, -, hk1⟩ := matchAtom_sound h
      obtain ⟨n2, caps', hn2, hcf, hmap, hk2⟩ := ih hk1
      rw [List.length_drop] at hn2
      refine ⟨n1 + n2, caps', by omega, ?_, ?_, ?_⟩
      · intro c hc
        obtain ⟨as, hmem, hlang⟩ := hcf c hc
        exact ⟨as, List.mem_cons_of_mem _ hmem, hlang⟩
      · simpa [groupIndices] using hmap
      · rw [List.drop_drop] at hk2
        exact hk2
    | grp i as =>
      simp only [matchItems] at h
      obtain ⟨n1, hn1, hlang, hk1⟩ := matchAtoms_sound h
      have hlen : cs.length - (cs.drop n1).length = n1 := by
        rw [List.length_drop]
        omega
      rw [hlen] at hk1
      obtain ⟨n2, caps', hn2, hcf, hmap, hk2⟩ := ih hk1
      rw [List.length_drop] at hn2
      refine ⟨n1 + n2, (i, String.mk (cs.take n1)) :: caps', by omega, ?_, ?_, ?_⟩
      · intro c hc
        rcases List.mem_cons.1 hc with rfl | hc'
        · exact ⟨as, List.mem_cons_self _ _, by rw [toList_mk]; exact hlang⟩
        · obtain ⟨as', hmem, hlang'⟩ := hcf c hc'
          exact ⟨as', List.mem_cons_of_mem _ hmem, hlang'⟩
      · simpa [groupIndices] using hmap
      · rw [List.drop_drop] at hk2
        rw [List.append_assoc, List.singleton_append] at hk2
        exact hk2

theorem tryMatchAt_sound {p : Pattern} {cs : List Char} {caps : Caps} {rest : List Char}
    (h : tryMatchAt p cs = some (caps, rest)) :
    CapsFrom p caps ∧ caps.map Prod.fst = groupIndices p := by
  unfold tryMatchAt at h
  obtain ⟨n, caps', -, hcf, hmap, hk⟩ := matchItems_sound h
  simp only [Option.some.injEq, Prod.mk.injEq, List.nil_append] at hk
  obtain ⟨hc, -⟩ := hk
  subst hc
  exact ⟨hcf, hmap⟩

theorem reSearch_sound :
    ∀ {cs : List Char} {p : Pattern} {caps : Caps} {rest : List Char},
      reSearch p cs = some (caps, rest) →
      CapsFrom p caps ∧ caps.map Prod.fst = groupIndices p := by
  intro cs
  induction cs with
  | nil => intro p caps rest h; exact tryMatchAt_sound h
  | cons c cs' ih =>
    intro p caps rest h
    rw [reSearch] at h
    split at h
    · rename_i r hr
      cases h
      exact tryMatchAt_sound hr
    · exact ih h

theorem reFindallAux_sound :
    ∀ {fuel : Nat} {p : Pattern} {cs : List Char} {caps : Caps},
      caps ∈ reFindallAux p fuel cs →
      CapsFrom p caps ∧ caps.map Prod.fst = groupIndices p := by
  intro fuel
  induction fuel with
  | zero => intro p cs caps h; cases h
  | succ fuel ih =>
    intro p cs caps h
    rw [reFindallAux] at h
    split at h
    · cases h
    · rename_i caps0 rest0 hr
      split at h
      · rcases List.mem_cons.1 h with rfl | h'
        · exact reSearch_sound hr
        · exact ih h'
      · rcases List.mem_singleton.1 h with rfl
        exact reSearch_sound hr

theorem reFindall_sound {p : Pattern} {cs : List Char} {caps : Caps}
    (h : caps ∈ reFindall p cs) :
    CapsFrom p caps ∧ caps.map Prod.fst = groupIndices p :=
  reFindallAux_sound h

/-! ### Shapes of the integer captures -/

theorem parseIntChars_isSome_of_sign_digits {xs : List Char}
    (h : AtomsLang [.rep isDashChar 0 (some 1) true, .rep isDigitChar 1 none true] xs) :
    (parseIntChars xs).isSome = true := by
  cases h with
  | cons hx hrest =>
    rename_i xs1 ys
    cases hrest with
    | cons hy hnil =>
      rename_i ys1 ys2
      cases hnil
      obtain ⟨hall1, -, hmx1⟩ := hx
      obtain ⟨hall2, hmn2, -⟩ := hy
      rw [List.append_nil]
      have hx1len : xs1.length ≤ 1 := hmx1 1 rfl
      cases hys1 : ys1 with
      | nil => rw [hys1] at hmn2; simp at hmn2
      | cons e es =>
        have hed : isDigitChar e = true := by
          apply hall2
          rw [hys1]
          exact List.mem_cons_self e es
        have hene : (e == '-') = false := by
          by_cases heq : e = '-'
          · subst heq
            simp [isDigitChar] at hed
          · exact beq_eq_false_iff_ne.2 heq
        cases hxs1 : xs1 with
        | nil =>
          simp only [List.nil_append, hys1]
          rw [parseIntChars, hene]
          have : (e :: es).all isDigitChar = true := by
            rw [← hys1]
            exact List.all_eq_true.2 hall2
          simp [if_pos this, this]
        | cons d ds =>
          have hds : ds = [] := by
            rw [hxs1] at hx1len
            simp only [List.length_cons] at hx1len
            exact List.length_eq_zero.1 (by omega)
          have hd : d = '-' := by
            have := hall1 d (by rw [hxs1]; exact List.mem_cons_self d ds)
            simpa [isDashChar] using this
          subst hds
          subst hd
          simp only [List.cons_append, List.nil_append]
          rw [parseIntChars]
          have hne : (ys1.isEmpty) = false := by
            rw [hys1]
            rfl
          have hdig : ys1.all isDigitChar = true := List.all_eq_true.2 hall2
          simp [hne, hdig]
          refine ⟨hed, fun x hx => hall2 x ?_⟩
          rw [hys1]
          exact List.mem_cons_of_mem e hx

theorem parseIntChars_isSome_of_digits {xs : List Char}
    (h : AtomsLang [.rep isDigitChar 1 none true] xs) :
    (parseIntChars xs).isSome = true := by
  cases h with
  | cons hy hnil =>
    rename_i ys1 ys2
    cases hnil
    obtain ⟨hall, hmn, -⟩ := hy
    rw [List.append_nil]
    cases hys1 : ys1 with
    | nil => rw [hys1] at hmn; simp at hmn
    | cons e es =>
      have hed : isDigitChar e = true := by
        apply hall
        rw [hys1]
        exact List.mem_cons_self e es
      have hene : (e == '-') = false := by
        by_cases heq : e = '-'
        · subst heq
          simp [isDigitChar] at hed
        · exact beq_eq_false_iff_ne.2 heq
      rw [parseIntChars, hene]
      have : (e :: es).all isDigitChar = true := by
        rw [← hys1]
        exact List.all_eq_true.2 hall
      simp [this]

theorem ltePairs_shape (content : String) :
    ∀ pv ∈ ltePairs content, (parseIntChars pv.2.toList).isSome = true := by
  intro pv hpv
  unfold ltePairs at hpv
  obtain ⟨caps, hcaps, hpveq⟩ := List.mem_map.1 hpv
  obtain ⟨hcf, hmap⟩ := reFindall_sound hcaps
  have hgi : groupIndices reLTE = [1, 2] := rfl
  rw [hgi] at hmap
  rcases caps with _ | ⟨c1, _ | ⟨c2, _ | ⟨c3, rest⟩⟩⟩
  · simp at hmap
  · simp at hmap
  · simp only [List.map_cons, List.map_nil, List.cons.injEq, and_true] at hmap
    obtain ⟨h1, h2⟩ := hmap
    have hget2 : capGet [c1, c2] 2 = c2.2 := by
      have hne : (c1.1 == 2) = false := by
        rw [h1]
        rfl
      simp [capGet, List.find?, hne, h2]
    obtain ⟨as, hmem, hlang⟩ := hcf c2 (by simp)
    rw [h2] at hmem
    simp only [reLTE, List.mem_cons, List.not_mem_nil, or_false] at hmem
    rcases hmem with heq | heq | heq | heq | heq
    · simp at heq
    · simp at heq
    · simp at heq
    · simp at heq
    · simp only [Item.grp.injEq, true_and] at heq
      subst heq
      rw [← hpveq]
      simpa [hget2] using parseIntChars_isSome_of_sign_digits hlang
  · simp at hmap

theorem wifiTriples_shape (content : String) :
    ∀ t ∈ wifiTriples content,
      (parseIntChars t.2.1.toList).isSome = true ∧
        (parseIntChars t.2.2.toList).isSome = true := by
  intro t ht
  unfold wifiTriples at ht
  obtain ⟨caps, hcaps, hteq⟩ := List.mem_map.1 ht
  obtain ⟨hcf, hmap⟩ := reFindall_sound hcaps
  have hgi : groupIndices reWifi = [1, 2, 3] := rfl
  rw [hgi] at hmap
  rcases caps with _ | ⟨c1, _ | ⟨c2, _ | ⟨c3, _ | ⟨c4, rest⟩⟩⟩⟩
  · simp at hmap
  · simp at hmap
  · simp at hmap
  · simp only [List.map_cons, List.map_nil, List.cons.injEq, and_true] at hmap
    obtain ⟨h1, h2, h3⟩ := hmap
    have hne1 : (c1.1 == 2) = false := by rw [h1]; rfl
    have hne1' : (c1.1 == 3) = false := by rw [h1]; rfl
    have hne2 : (c2.1 == 3) = false := by rw [h2]; rfl
    have hget2 : capGet [c1, c2, c3] 2 = c2.2 := by
      simp [capGet, List.find?, hne1, h2]
    have hget3 : capGet [c1, c2, c3] 3 = c3.2 := by
      simp [capGet, List.find?, hne1', hne2, h3]
    constructor
    · obtain ⟨as, hmem, hlang⟩ := hcf c2 (by simp)
      rw [h2] at hmem
      simp only [reWifi, List.mem_cons, List.not_mem_nil, or_false] at hmem
      rcases hmem with heq | heq | heq | heq | heq | heq | heq | heq | heq | heq | heq | heq
      all_goals simp at heq
      subst heq
      rw [← hteq]
      simpa [hget2] using parseIntChars_isSome_of_sign_digits hlang
    · obtain ⟨as, hmem, hlang⟩ := hcf c3 (by simp)
      rw [h3] at hmem
      simp only [reWifi, List.mem_cons, List.not_mem_nil, or_false] at hmem
      rcases hmem with heq | heq | heq | heq | heq | heq | heq | heq | heq | heq | heq | heq
      all_goals simp at heq
      subst heq
      rw [← hteq]
      simpa [hget3] using parseIntChars_isSome_of_digits hlang
  · simp at hmap

/-! ### Totality of the parser -/

theorem applyLte_ok (m : List (String × PyVal)) (pv : String × String)
    (hpv : (parseIntChars pv.2.toList).isSome = true) :
    ∃ m', applyLte m pv = .ok m' := by
  unfold applyLte
  split
  · obtain ⟨v, hv⟩ := Option.isSome_iff_exists.1 hpv
    refine ⟨dictSet m (lowerStr pv.1) (.intV v), ?_⟩
    have hv' : parseIntChars pv.2.data = some v := hv
    rw [show pyInt (.strV pv.2) = .ok v from by simp [pyInt, hv'], exceptBind_ok]
    rfl
  · exact ⟨m, rfl⟩

theorem applyWifi_ok (nets : List WifiNetwork) (t : String × String × String)
    (h2 : (parseIntChars t.2.1.toList).isSome = true)
    (h3 : (parseIntChars t.2.2.toList).isSome = true) :
    ∃ n', applyWifi nets t = .ok n' := by
  obtain ⟨v2, hv2⟩ := Option.isSome_iff_exists.1 h2
  obtain ⟨v3, hv3⟩ := Option.isSome_iff_exists.1 h3
  refine ⟨nets ++ [⟨t.1, v2, v3⟩], ?_⟩
  have hv2' : parseIntChars t.2.1.data = some v2 := hv2
  have hv3' : parseIntChars t.2.2.data = some v3 := hv3
  unfold applyWifi
  rw [show pyInt (.strV t.2.1) = .ok v2 from by simp [pyInt, hv2'], exceptBind_ok,
    show pyInt (.strV t.2.2) = .ok v3 from by simp [pyInt, hv3'], exceptBind_ok]
  rfl

theorem foldlM_ok_of_all {α β : Type} {f : β → α → Except PyErr β} :
    ∀ {l : List α}, (∀ x ∈ l, ∀ m, ∃ m', f m x = .ok m') →
      ∀ m0 : β, ∃ m, l.foldlM f m0 = .ok m := by
  intro l
  induction l with
  | nil => intro _ m0; exact ⟨m0, rfl⟩
  | cons x xs ih =>
    intro hall m0
    obtain ⟨m1, hm1⟩ := hall x (List.mem_cons_self x xs) m0
    obtain ⟨m, hm⟩ := ih (fun y hy => hall y (List.mem_cons_of_mem x hy)) m1
    refine ⟨m, ?_⟩
    rw [List.foldlM_cons, hm1, exceptBind_ok]
    exact hm

/-- Every capture the parser converts with `int()` parses, so
`parse_report_content` never raises: the error branch of the `Except` is
unreachable for every input text. -/
theorem parse_report_content_total (now content : String) :
    (parse_report_content now content).isOk = true := by
  obtain ⟨nets, hnets⟩ :=
    foldlM_ok_of_all
      (fun t ht m => applyWifi_ok m t (wifiTriples_shape content t ht).1
        (wifiTriples_shape content t ht).2) ([] : List WifiNetwork)
  obtain ⟨cell, hcell⟩ :=
    foldlM_ok_of_all (fun pv hpv m => applyLte_ok m pv (ltePairs_shape content pv hpv))
      (cellLocationOf content.toList)
  unfold parse_report_content
  rw [hnets, exceptBind_ok, hcell, exceptBind_ok]
  rfl

theorem parse_ok_inversion {now content : String} {r : ParsedReport}
    (h : parse_report_content now content = .ok r) :
    ∃ nets cell,
      (wifiTriples content).foldlM applyWifi [] = .ok nets ∧
      (ltePairs content).foldlM applyLte (cellLocationOf content.toList) = .ok cell ∧
      r = ⟨deviceInfoOf content.toList, permissionsOf content.toList,
           simInfoOf content.toList, nets, cell, now⟩ := by
  unfold parse_report_content at h
  cases h1 : (wifiTriples content).foldlM applyWifi [] with
  | error e => rw [h1, exceptBind_error] at h; cases h
  | ok nets =>
    rw [h1, exceptBind_ok] at h
    cases h2 : (ltePairs content).foldlM applyLte (cellLocationOf content.toList) with
    | error e => rw [h2, exceptBind_error] at h; cases h
    | ok cell =>
      rw [h2, exceptBind_ok] at h
      refine ⟨nets, cell, rfl, rfl, ?_⟩
      have h' : Except.ok (ε := PyErr)
          (ParsedReport.mk (deviceInfoOf content.toList) (permissionsOf content.toList)
            (simInfoOf content.toList) nets cell now) = .ok r := h
      injection h' with h''
      exact h''.symm

/-! ### C6 -/

/-- C6: parsing the empty string (or a text none of the extraction rules
recognize) yields a record in which all five sub-maps are empty and only
the timestamp field is populated, and the parser never raises for any
input text. -/
theorem C6_parse_empty_and_total :
    (∀ now : String, parse_report_content now "" = .ok ⟨[], [], [], [], [], now⟩) ∧
    (∀ now : String,
      parse_report_content now "no anchors in this text" = .ok ⟨[], [], [], [], [], now⟩) ∧
    (∀ now content : String, (parse_report_content now content).isOk = true) :=
  ⟨fun _ => rfl, fun _ => rfl, parse_report_content_total⟩

/-! ### Dictionary and fold lemmas for the cell-info rules -/

theorem dictLookup_dictSet_self (m : List (String × α)) (k : String) (v : α) :
    dictLookup (dictSet m k v) k = some v := by
  induction m with
  | nil => simp [dictSet, dictLookup]
  | cons p ps ih =>
    rw [dictSet]
    split
    · rw [dictLookup, if_pos (by simp)]
    · rename_i hne
      rw [dictLookup, if_neg hne]
      exact ih

theorem dictLookup_dictSet_ne (m : List (String × α)) (k k' : String) (v : α)
    (h : k ≠ k') : dictLookup (dictSet m k v) k' = dictLookup m k' := by
  induction m with
  | nil =>
    simp only [dictSet, dictLookup]
    rw [if_neg (by simpa using h)]
  | cons p ps ih =>
    rw [dictSet]
    split
    · rename_i heq
      rw [dictLookup, dictLookup, if_neg (by simpa using h),
        if_neg (by rw [beq_iff_eq.1 heq]; simpa using h)]
    · rw [dictLookup, dictLookup]
      split
      · rfl
      · exact ih

theorem foldlM_ok_cons {α β : Type} {f : β → α → Except PyErr β} {b : β} {x : α}
    {l : List α} {r : β} (h : (x :: l).foldlM f b = .ok r) :
    ∃ b', f b x = .ok b' ∧ l.foldlM f b' = .ok r := by
  rw [List.foldlM_cons] at h
  cases hfx : f b x with
  | error e => rw [hfx, exceptBind_error] at h; cases h
  | ok b' =>
    rw [hfx, exceptBind_ok] at h
    exact ⟨b', rfl, h⟩

theorem lteFold_lookup_notin (k : String) (hk : allowList.contains k = false) :
    ∀ (pairs : List (String × String)) (m0 m : List (String × PyVal)),
      pairs.foldlM applyLte m0 = .ok m → dictLookup m k = dictLookup m0 k := by
  intro pairs
  induction pairs with
  | nil =>
    intro m0 m h
    have h' : Except.ok (ε := PyErr) m0 = .ok m := h
    injection h' with h''
    rw [← h'']
  | cons pv rest ih =>
    intro m0 m h
    obtain ⟨m1, hm1, hrest⟩ := foldlM_ok_cons h
    rw [ih m1 m hrest]
    unfold applyLte at hm1
    split at hm1
    · rename_i hin
      cases hv : pyInt (.strV pv.2) with
      | error e => rw [hv, exceptBind_error] at hm1; cases hm1
      | ok v =>
        rw [hv, exceptBind_ok] at hm1
        have h' : Except.ok (ε := PyErr) (dictSet m0 (lowerStr pv.1) (.intV v)) = .ok m1 := hm1
        injection h' with h''
        rw [← h'']
        apply dictLookup_dictSet_ne
        intro heqk
        rw [heqk, hk] at hin
        cases hin
    · have h' : Except.ok (ε := PyErr) m0 = .ok m1 := hm1
      injection h' with h''
      rw [← h'']

theorem getLast?_cons_form (a : α) (l : List α) :
    (a :: l).getLast? = match l.getLast? with
      | some x => some x
      | none => some a := by
  cases l with
  | nil => rfl
  | cons b bs =>
    rw [List.getLast?_cons_cons]
    cases hbs : (b :: bs).getLast? with
    | some x => rfl
    | none =>
      rw [List.getLast?_eq_none_iff] at hbs
      cases hbs

theorem lteFold_lookup (k : String) (hk : allowList.contains k = true) :
    ∀ (pairs : List (String × String)) (m0 m : List (String × PyVal)),
      pairs.foldlM applyLte m0 = .ok m →
      dictLookup m k =
        match (pairs.filter (fun pv => lowerStr pv.1 == k)).getLast? with
        | some pv => some (.intV ((parseIntChars pv.2.toList).getD 0))
        | none => dictLookup m0 k := by
  intro pairs
  induction pairs with
  | nil =>
    intro m0 m h
    have h' : Except.ok (ε := PyErr) m0 = .ok m := h
    injection h' with h''
    rw [← h'']
    rfl
  | cons pv rest ih =>
    intro m0 m h
    obtain ⟨m1, hm1, hrest⟩ := foldlM_ok_cons h
    have hres := ih m1 m hrest
    by_cases hmatch : lowerStr pv.1 == k
    · -- this pair writes key k
      have hin : allowList.contains (lowerStr pv.1) = true := by
        rw [beq_iff_eq.1 hmatch, hk]
      rw [applyLte, if_pos hin] at hm1
      cases hv : pyInt (.strV pv.2) with
      | error e => rw [hv, exceptBind_error] at hm1; cases hm1
      | ok v =>
        rw [hv, exceptBind_ok] at hm1
        have h' : Except.ok (ε := PyErr) (dictSet m0 (lowerStr pv.1) (.intV v)) = .ok m1 := hm1
        injection h' with h''
        have hvval : v = (parseIntChars pv.2.toList).getD 0 := by
          rw [pyInt] at hv
          cases hp : parseIntChars pv.2.toList with
          | none =>
            rw [hp] at hv
            simp at hv
          | some w =>
            rw [hp] at hv
            have hv2 : Except.ok (ε := PyErr) w = .ok v := hv
            injection hv2 with hv3
            exact hv3.symm
        rw [List.filter_cons_of_pos (by simpa using hmatch), getLast?_cons_form]
        cases hlast : (rest.filter (fun pv => lowerStr pv.1 == k)).getLast? with
        | some x =>
          rw [hres, hlast]
        | none =>
          rw [hres, hlast, ← h'', beq_iff_eq.1 hmatch, dictLookup_dictSet_self, hvval]
    · -- this pair does not write key k
      have hfil : (pv :: rest).filter (fun pv => lowerStr pv.1 == k)
          = rest.filter (fun pv => lowerStr pv.1 == k) := by
        rw [List.filter_cons_of_neg (by simpa using hmatch)]
      rw [hfil, hres]
      have hlook : dictLookup m1 k = dictLookup m0 k := by
        rw [applyLte] at hm1
        split at hm1
        · cases hv : pyInt (.strV pv.2) with
          | error e => rw [hv, exceptBind_error] at hm1; cases hm1
          | ok v =>
            rw [hv, exceptBind_ok] at hm1
            have h' : Except.ok (ε := PyErr) (dictSet m0 (lowerStr pv.1) (.intV v))
                = .ok m1 := hm1
            injection h' with h''
            rw [← h'']
            exact dictLookup_dictSet_ne _ _ _ _ (by simpa using hmatch)
        · have h' : Except.ok (ε := PyErr) m0 = .ok m1 := hm1
          injection h' with h''
          rw [← h'']
      cases (rest.filter (fun pv => lowerStr pv.1 == k)).getLast? with
      | some x => rfl
      | none => exact hlook

theorem cellLocationOf_lookup_ne (cs : List Char) (k : String) (hk : k ≠ "location") :
    dictLookup (cellLocationOf cs) k = none := by
  unfold cellLocationOf
  split
  · rw [dictLookup, if_neg ?_]
    · rfl
    · intro heq
      exact hk (beq_iff_eq.1 heq).symm
  · rfl

theorem exists_ok_of_isOk {ε α : Type} {x : Except ε α} (h : x.isOk = true) :
    ∃ r, x = .ok r := by
  cases x with
  | ok a => exact ⟨a, rfl⟩
  | error e => simp [Except.isOk, Except.toBool] at h

/-! ### C7 -/

/-- C7: rule 7 scans the whole document and later matches overwrite
earlier ones.  For every content whose parse succeeds (which is every
content, by `parse_report_content_total`) and every allow-listed key
`k`, the `cell_info` entry for `k` is the integer of the last
`(token, integer)` pair in text order of the whole-document scan whose
lowercased token is `k` — `ltePairs` is defined on the full text,
independent of what the other rules consumed, so a pair inside, e.g., a
WiFi block still counts (see the witness). -/
theorem C7_last_match_wins (now content : String) (r : ParsedReport) (k : String)
    (hok : parse_report_content now content = .ok r)
    (hk : allowList.contains k = true) :
    dictLookup r.cell_info k = (lastLteValue content k).map PyVal.intV := by
  obtain ⟨nets, cell, -, hcell, hr⟩ := parse_ok_inversion hok
  subst hr
  show dictLookup cell k = _
  rw [lteFold_lookup k hk (ltePairs content) _ cell hcell]
  unfold lastLteValue
  cases hlast : ((ltePairs content).filter (fun pv => lowerStr pv.1 == k)).getLast? with
  | some pv => simp
  | none =>
    simp only [Option.map_none']
    apply cellLocationOf_lookup_ne
    intro heq
    rw [heq] at hk
    exact absurd hk (by decide)

/-- C7 witness: in this document `mcc: 42` lies inside the span consumed
by the WiFi rule (it is the captured SSID) and a later `mcc: 311`
follows; the parser goes through, the rule-7 value for `mcc` is the last
match, and it equals 311. -/
theorem C7_witness :
    allowList.contains "mcc" = true ∧
    cellLookup (parse_report_content "T" "SSID: mcc: 42\nx RSSI: -45 y channel: 6\nmcc: 311")
        "mcc"
      = (lastLteValue "SSID: mcc: 42\nx RSSI: -45 y channel: 6\nmcc: 311" "mcc").map
          PyVal.intV ∧
    cellLookup (parse_report_content "T" "SSID: mcc: 42\nx RSSI: -45 y channel: 6\nmcc: 311")
        "mcc" = some (.intV 311) := by
  refine ⟨by decide, ?_, by rfl⟩
  obtain ⟨r, hok⟩ := exists_ok_of_isOk
    (parse_report_content_total "T" "SSID: mcc: 42\nx RSSI: -45 y channel: 6\nmcc: 311")
  rw [hok]
  show dictLookup r.cell_info "mcc" = _
  exact C7_last_match_wins "T" _ r "mcc" hok (by decide)

/-! ### C10 -/

/-- C10: the parser stores extracted cell ids under key `"cid"` (in the
allow-list) and never under `"ci"` (not in the allow-list, and not the
`location` key either), while `calculate_possible_imsis` reads key
`"ci"`; hence the cell-id component defaults to `"0"` for every
`device_data` that lacks the five read keys — as every parse result
does — Method 2's arithmetic candidate is always
`mcc + mnc + "0000000000"`, and such a `device_data` behaves exactly
like the empty one. -/
theorem C10_ci_cid_mismatch :
    (allowList.contains "cid" = true ∧ allowList.contains "ci" = false) ∧
    (∀ now content : String, cellLookup (parse_report_content now content) "ci" = none) ∧
    (∀ (rng : Nat → Nat) (i : Nat),
      imsiIteration rng (.strV "310") (.strV "260") (.strV "0000") "0" "0" i =
        .ok ⟨"310260" ++ strTake (sha256_hexdigest
               (imsiHashStr (.strV "310") (.strV "260") (.strV "0000") "0" "0" i)) 10,
             "310260" ++ "0000000000",
             "310260" ++ randomDigits rng (10 * i) 10⟩) ∧
    (∀ dd : List (String × PyVal),
      dictLookup dd "mcc" = none → dictLookup dd "mnc" = none →
      dictLookup dd "tac" = none → dictLookup dd "pci" = none →
      dictLookup dd "ci" = none →
      ∀ (rng : Nat → Nat) (count : Int),
        calculate_possible_imsis rng dd count = calculate_possible_imsis rng [] count) := by
  refine ⟨⟨by decide, by decide⟩, ?_, ?_, ?_⟩
  · intro now content
    cases hok : parse_report_content now content with
    | error e => rfl
    | ok r =>
      obtain ⟨nets, cell, -, hcell, hr⟩ := parse_ok_inversion hok
      subst hr
      show dictLookup cell "ci" = none
      rw [lteFold_lookup_notin "ci" (by decide) _ _ cell hcell]
      exact cellLocationOf_lookup_ne _ _ (by decide)
  · intro rng i
    have h := imsiIteration_ok rng "310" "260" (.strV "0000") "0" "0" i 0 rfl
    rw [h]
    rfl
  · intro dd h1 h2 h3 h4 h5 rng count
    unfold calculate_possible_imsis
    rw [dictGetD, dictGetD, dictGetD, dictGetD, dictGetD, h1, h2, h3, h4, h5]
    rfl

/-- C10 witness: a `device_data` carrying only the parser's `cid` key
(value 77) — lacking `mcc`, `mnc`, `tac`, `pci` and `ci` — behaves
exactly like the empty one, and the arithmetic candidate of every
iteration is `"310260" ++ "0000000000"`. -/
theorem C10_witness :
    dictLookup [("cid", PyVal.intV 77)] "mcc" = none ∧
    dictLookup [("cid", PyVal.intV 77)] "mnc" = none ∧
    dictLookup [("cid", PyVal.intV 77)] "tac" = none ∧
    dictLookup [("cid", PyVal.intV 77)] "pci" = none ∧
    dictLookup [("cid", PyVal.intV 77)] "ci" = none ∧
    calculate_possible_imsis zeroRng [("cid", PyVal.intV 77)] 2
      = calculate_possible_imsis zeroRng [] 2 ∧
    cellLookup (parse_report_content "T" "cid: 77") "ci" = none :=
  ⟨rfl, rfl, rfl, rfl, rfl,
    C10_ci_cid_mismatch.2.2.2 [("cid", PyVal.intV 77)] rfl rfl rfl rfl rfl zeroRng 2,
    C10_ci_cid_mismatch.2.1 "T" "cid: 77"⟩

/-! ### Computation lemmas for the permission pattern -/

theorem litMatch_self_append (l cs : List Char) : litMatch l (l ++ cs) = some cs := by
  induction l with
  | nil => simp [litMatch]
  | cons c ls ih => simp [litMatch, ih]

theorem matchAtom_lit_append {σ : Type} (l rest : List Char) (k : List Char → Option σ) :
    matchAtom (.lit l) (l ++ rest) k = k rest := by
  simp only [matchAtom, litMatch_self_append]

theorem takeWhile_eq_self_of_all {p : Char → Bool} {l : List Char}
    (h : ∀ c ∈ l, p c = true) : l.takeWhile p = l := by
  induction l with
  | nil => rfl
  | cons c cs ih =>
    rw [List.takeWhile_cons_of_pos (h c (List.mem_cons_self c cs))]
    rw [ih (fun x hx => h x (List.mem_cons_of_mem c hx))]

theorem isPySpace_of_isWordChar {c : Char} (h : isWordChar c = true) : isPySpace c = false := by
  by_contra hs
  rw [Bool.not_eq_false] at hs
  simp only [isPySpace, Bool.or_eq_true, beq_iff_eq] at hs
  rcases hs with ((((rfl | rfl) | rfl) | rfl) | rfl) | rfl <;> simp [isWordChar] at h

theorem matchAtom_spaceStar_none {σ : Type} {cs : List Char}
    (htw : cs.takeWhile isPySpace = []) (k : List Char → Option σ) :
    matchAtom (.rep isPySpace 0 none true) cs k = k cs := by
  simp only [matchAtom, htw, List.length_nil]
  rw [show repCounts 0 0 true = [0] from rfl, firstSome, List.drop_zero]
  cases hk : k cs with
  | some b => rfl
  | none => rfl

theorem matchAtom_spaceStar_single {σ : Type} {tl : List Char}
    (htw : tl.takeWhile isPySpace = []) (k : List Char → Option σ) {r : σ}
    (hk : k tl = some r) :
    matchAtom (.rep isPySpace 0 none true) (' ' :: tl) k = some r := by
  simp only [matchAtom]
  rw [List.takeWhile_cons_of_pos (by decide), htw]
  show firstSome (fun n => k ((' ' :: tl).drop n)) (repCounts 0 [' '].length true) = some r
  rw [show repCounts 0 [' '].length true = [1, 0] from rfl]
  rw [firstSome]
  rw [show (' ' :: tl).drop 1 = tl from rfl, hk]

theorem matchAtom_wordPlus {σ : Type} {tl : List Char} (hne : tl ≠ [])
    (hword : ∀ c ∈ tl, isWordChar c = true) (k : List Char → Option σ) {r : σ}
    (hk : k [] = some r) :
    matchAtom (.rep isWordChar 1 none true) tl k = some r := by
  simp only [matchAtom]
  rw [takeWhile_eq_self_of_all hword]
  cases tl with
  | nil => cases hne rfl
  | cons c cs =>
    have hc : repCounts 1 (c :: cs).length true
        = (cs.length + 1) :: ((List.range cs.length).map (· + 1)).reverse := by
      unfold repCounts
      rw [if_pos rfl, List.length_cons, Nat.add_sub_cancel, List.range_succ,
        List.map_append, List.reverse_append]
      simp
    rw [hc, firstSome]
    rw [show (c :: cs).drop (cs.length + 1) = [] from by
      rw [← List.length_cons c cs]; exact List.drop_length _]
    rw [hk]

theorem reSearch_of_tryMatchAt {p : Pattern} {cs : List Char} {res : Caps × List Char}
    (h : tryMatchAt p cs = some res) : reSearch p cs = some res := by
  cases cs with
  | nil => rw [reSearch]; exact h
  | cons c cs' => simp only [reSearch, h]

theorem permMatch_token (token : String) (hne : token.toList ≠ [])
    (hword : ∀ c ∈ token.toList, isWordChar c = true) :
    reSearch (permPattern "Is Location Enabled")
      ("Is Location Enabled: " ++ token).toList = some ([(1, token)], []) := by
  have hsplit : ("Is Location Enabled: " ++ token).toList
      = "Is Location Enabled".toList ++ (':' :: ' ' :: token.toList) := by
    rw [toList_append]
    rfl
  rw [hsplit]
  apply reSearch_of_tryMatchAt
  unfold tryMatchAt permPattern
  have htwtok : token.toList.takeWhile isPySpace = [] := by
    cases htok : token.toList with
    | nil => rfl
    | cons t ts =>
      rw [List.takeWhile_cons_of_neg]
      rw [isPySpace_of_isWordChar (hword t (by rw [htok]; exact List.mem_cons_self t ts))]
      simp
  rw [matchItems, matchAtom_lit_append]
  rw [matchItems]
  rw [matchAtom_spaceStar_none (by rfl)]
  rw [matchItems]
  rw [show (':' :: ' ' :: token.toList) = [':'] ++ (' ' :: token.toList) from rfl,
    matchAtom_lit_append]
  rw [matchItems]
  apply matchAtom_spaceStar_single htwtok
  rw [matchItems, matchAtoms]
  apply matchAtom_wordPlus hne hword
  simp only [matchAtoms, matchItems, List.length_nil, Nat.sub_zero, List.take_length,
    List.nil_append]
  rfl

theorem permFold_preserves (cs : List Char) (k : String) :
    ∀ (pairs : List (String × Pattern)) (m0 : List (String × Bool)),
      (∀ kp ∈ pairs, kp.1 ≠ k) →
      dictLookup (pairs.foldl (fun m kp =>
        match reSearch kp.2 cs with
        | some (caps, _) => dictSet m kp.1 (lowerStr (capGet caps 1) == "true")
        | none => m) m0) k = dictLookup m0 k := by
  intro pairs
  induction pairs with
  | nil => intro m0 _; rfl
  | cons kp rest ih =>
    intro m0 hall
    rw [List.foldl_cons]
    rw [ih _ (fun x hx => hall x (List.mem_cons_of_mem kp hx))]
    cases hres : reSearch kp.2 cs with
    | none => rfl
    | some res =>
      cases res with
      | mk caps rest' =>
        exact dictLookup_dictSet_ne _ _ _ _ (hall kp (List.mem_cons_self kp rest))

theorem permissionsOf_canonical (token : String) (hne : token.toList ≠ [])
    (hword : ∀ c ∈ token.toList, isWordChar c = true) :
    dictLookup (permissionsOf ("Is Location Enabled: " ++ token).toList) "location_enabled"
      = some (lowerStr token == "true") := by
  unfold permissionsOf
  have hz : perm_keys.zip perm_patterns
      = ("location_enabled", permPattern "Is Location Enabled")
        :: [("course_location", permPattern "Course Location access"),
            ("fine_location", permPattern "Fine Location access"),
            ("background_location", permPattern "Background Location access"),
            ("phone_state", permPattern "Phone State access"),
            ("write_access", permPattern "Write access"),
            ("wifi_state", permPattern "WiFi State access")] := rfl
  rw [hz, List.foldl_cons, permMatch_token token hne hword]
  rw [permFold_preserves _ _ _ _ ?later]
  case later =>
    intro kp hkp
    simp only [List.mem_cons, List.not_mem_nil, or_false] at hkp
    rcases hkp with rfl | rfl | rfl | rfl | rfl | rfl <;> decide
  show dictLookup (dictSet [] "location_enabled"
    (lowerStr (capGet [(1, token)] 1) == "true")) "location_enabled" = _
  rw [dictLookup_dictSet_self]
  rfl

/-! ### C3 -/

/-- C3 counterexample: the token `"True"` maps to `true`, not `false` —
the source lowercases the token before comparing with `"true"`. -/
theorem C3_counterexample :
    permLookup (parse_report_content "T" "Is Location Enabled: True") "location_enabled"
      = some true := by rfl

/-- C3 (amended): the captured permission token maps to `true` exactly
when its lowercased form is the literal `"true"` — so `"true"`,
`"True"` and `"TRUE"` map to `true`, while `"false"` and `"unknown"`
map to `false`.  Stated for the `Is Location Enabled` line over every
word token. -/
theorem C3_token_normalization_amended (now token : String) (hne : token.toList ≠ [])
    (hword : ∀ c ∈ token.toList, isWordChar c = true) :
    permLookup (parse_report_content now ("Is Location Enabled: " ++ token))
        "location_enabled" = some (lowerStr token == "true") := by
  obtain ⟨r, hok⟩ := exists_ok_of_isOk
    (parse_report_content_total now ("Is Location Enabled: " ++ token))
  rw [hok]
  show dictLookup r.permissions "location_enabled" = _
  obtain ⟨nets, cell, -, -, hr⟩ := parse_ok_inversion hok
  subst hr
  show dictLookup (permissionsOf ("Is Location Enabled: " ++ token).toList)
    "location_enabled" = _
  exact permissionsOf_canonical token hne hword

/-- C3 witness: the amended theorem at the five tokens the claim names,
with the concrete truth value of each. -/
theorem C3_witness :
    ("true".toList ≠ [] ∧ ∀ c ∈ "true".toList, isWordChar c = true) ∧
    ("True".toList ≠ [] ∧ ∀ c ∈ "True".toList, isWordChar c = true) ∧
    ("TRUE".toList ≠ [] ∧ ∀ c ∈ "TRUE".toList, isWordChar c = true) ∧
    ("false".toList ≠ [] ∧ ∀ c ∈ "false".toList, isWordChar c = true) ∧
    ("unknown".toList ≠ [] ∧ ∀ c ∈ "unknown".toList, isWordChar c = true) ∧
    permLookup (parse_report_content "T" ("Is Location Enabled: " ++ "true"))
      "location_enabled" = some (lowerStr "true" == "true") ∧
    permLookup (parse_report_content "T" ("Is Location Enabled: " ++ "True"))
      "location_enabled" = some (lowerStr "True" == "true") ∧
    permLookup (parse_report_content "T" ("Is Location Enabled: " ++ "TRUE"))
      "location_enabled" = some (lowerStr "TRUE" == "true") ∧
    permLookup (parse_report_content "T" ("Is Location Enabled: " ++ "false"))
      "location_enabled" = some (lowerStr "false" == "true") ∧
    permLookup (parse_report_content "T" ("Is Location Enabled: " ++ "unknown"))
      "location_enabled" = some (lowerStr "unknown" == "true") ∧
    (lowerStr "true" == "true") = true ∧ (lowerStr "True" == "true") = true ∧
    (lowerStr "TRUE" == "true") = true ∧ (lowerStr "false" == "true") = false ∧
    (lowerStr "unknown" == "true") = false :=
  ⟨⟨by decide, by decide⟩, ⟨by decide, by decide⟩, ⟨by decide, by decide⟩,
    ⟨by decide, by decide⟩, ⟨by decide, by decide⟩,
    C3_token_normalization_amended "T" "true" (by decide) (by decide),
    C3_token_normalization_amended "T" "True" (by decide) (by decide),
    C3_token_normalization_amended "T" "TRUE" (by decide) (by decide),
    C3_token_normalization_amended "T" "false" (by decide) (by decide),
    C3_token_normalization_amended "T" "unknown" (by decide) (by decide),
    by decide, by decide, by decide, by decide, by decide⟩
